import Mathlib

/-!
Verification of the systole detection core (`systole/detection.py`) against its
specification.  The Python code is shallowly embedded over the rationals:
floating-point samples become `ℚ`, NaN-carrying pandas series become
`Option ℚ`, and the numpy/pandas/scipy primitives used by the code
(rolling quantiles with linear interpolation, rolling median, `np.median`,
`np.diff`, boolean-mask mutation, `scipy.signal.find_peaks`) are reproduced
faithfully as executable Lean functions.
-/

namespace Systole

/-! ## Rational helpers mirroring numpy / pandas primitives -/

/-- Absolute value on `ℚ`, written as `np.abs` computes it. -/
def qabs (x : ℚ) : ℚ := if x < 0 then -x else x

/-- Binary maximum, as `np.max([a, b])`. -/
def maxQ (a b : ℚ) : ℚ := if a < b then b else a

/-- Binary minimum, as `np.min([a, b])`. -/
def minQ (a b : ℚ) : ℚ := if b < a then b else a

/-- Insertion into a sorted list (helper for `sortQ`). -/
def insertSorted (x : ℚ) : List ℚ → List ℚ
  | [] => [x]
  | y :: ys => if x ≤ y then x :: y :: ys else y :: insertSorted x ys

/-- Sort a list of rationals in nondecreasing order. -/
def sortQ (l : List ℚ) : List ℚ := l.foldr insertSorted []

/-- Arithmetic mean; `0` on the empty list (numpy would warn and yield NaN
there, a case the theorems below never rely on). -/
def meanQ (l : List ℚ) : ℚ := l.sum / l.length

/-- Quantile with linear interpolation between order statistics, the default
of `pandas.rolling(...).quantile(q)` and of `np.median` (for `q = 1/2`):
with sorted values `s` of length `m`, `h = q*(m-1)`, the result is
`s[⌊h⌋] + (h - ⌊h⌋) * (s[⌊h⌋+1] - s[⌊h⌋])`. -/
def quantileQ (q : ℚ) (l : List ℚ) : ℚ :=
  let s := sortQ l
  let m := s.length
  if m = 0 then 0
  else
    let h : ℚ := q * ((m : ℚ) - 1)
    let lo : ℕ := (Rat.floor h).toNat
    let lov := s.getD lo 0
    lov + (h - (lo : ℚ)) * (s.getD (lo + 1) 0 - lov)

/-- Median (mean of the two middle order statistics at even length), as
`np.median` and `pandas.rolling(...).median()` compute it. -/
def medianQ (l : List ℚ) : ℚ := quantileQ (1/2) l

/-- Centered rolling window of odd width `w` at position `i`, truncated at the
series edges (`min_periods = 1`): the values at indices `j` with
`i - (w-1)/2 ≤ j ≤ i + (w-1)/2`. -/
def windowC (w : ℕ) (l : List ℚ) (i : ℕ) : List ℚ :=
  let half := (w - 1) / 2
  ((List.range l.length).filter (fun j => decide (i ≤ j + half) && decide (j ≤ i + half))).map
    (fun j => l.getD j 0)

/-! ## RR artefact classifier (`rr_artefacts`, detection.py lines 431-626)

Every numpy array of the Python function is embedded as a function of the
sample index (the arrays are materialised again in `rrArtefacts` below); each
in-place mutation of the Python code becomes one further definition layer, in
the order the mutations happen in the source. -/

/-- The constant `alpha = 5.2` of `rr_artefacts`. -/
def alphaArt : ℚ := 26/5

/-- The constant `c1 = 0.13` of `rr_artefacts`. -/
def c1Art : ℚ := 13/100

/-- The constant `c2 = 0.17` of `rr_artefacts`. -/
def c2Art : ℚ := 17/100

/-- Element access into the RR series (`rr[i]`). -/
def rrAt (rr : List ℚ) (i : ℕ) : ℚ := rr.getD i 0

/-- The `dRR` series: `np.diff(rr, prepend=0)` followed by
`dRR[0] = dRR[1:].mean()`. -/
def dRR (rr : List ℚ) (i : ℕ) : ℚ :=
  if i = 0 then meanQ ((List.range (rr.length - 1)).map (fun k => rrAt rr (k + 1) - rrAt rr k))
  else rrAt rr i - rrAt rr (i - 1)

/-- The series `np.abs(dRR)` fed to the rolling quantiles. -/
def absdRRList (rr : List ℚ) : List ℚ :=
  (List.range rr.length).map (fun i => qabs (dRR rr i))

/-- First threshold: `th1 = alpha * (Q3 - Q1) / 2` over a centered rolling
window of 91 samples (`min_periods = 1`) of `|dRR|`. -/
def th1 (rr : List ℚ) (i : ℕ) : ℚ :=
  let w := windowC 91 (absdRRList rr) i
  alphaArt * ((quantileQ (3/4) w - quantileQ (1/4) w) / 2)

/-- The normalized first-difference subspace `s11 = dRR / th1`. -/
def s11 (rr : List ℚ) (i : ℕ) : ℚ := dRR rr i / th1 rr i

/-- Centered rolling median of 11 samples (`min_periods = 1`) of `rr`. -/
def medRR (rr : List ℚ) (i : ℕ) : ℚ := medianQ (windowC 11 rr i)

/-- The `mRR` series before normalization: deviation from the rolling median,
with negative deviations doubled (`mRR[mRR < 0] = 2 * mRR[mRR < 0]`). -/
def mRRraw (rr : List ℚ) (i : ℕ) : ℚ :=
  let d := rrAt rr i - medRR rr i
  if d < 0 then 2 * d else d

/-- The series `np.abs(mRR)` fed to the rolling quantiles for `th2`. -/
def absmRRList (rr : List ℚ) : List ℚ :=
  (List.range rr.length).map (fun i => qabs (mRRraw rr i))

/-- Second threshold: `th2 = alpha * (Q3 - Q1) / 2` over a centered rolling
window of 91 samples (`min_periods = 1`) of `|mRR|`. -/
def th2 (rr : List ℚ) (i : ℕ) : ℚ :=
  let w := windowC 91 (absmRRList rr) i
  alphaArt * ((quantileQ (3/4) w - quantileQ (1/4) w) / 2)

/-- The normalized median-deviation subspace (`mRR /= th2`). -/
def mRRn (rr : List ℚ) (i : ℕ) : ℚ := mRRraw rr i / th2 rr i

/-- Subspace 2 (`s12`): `np.hstack([0, max-or-min of the two neighbours, 0])`
with the min taken where `dRR < 0` (the code uses the normalized `dRR`, i.e.
`s11`, at this point). -/
def s12 (rr : List ℚ) (i : ℕ) : ℚ :=
  if i = 0 || i + 1 = rr.length then 0
  else if s11 rr i < 0 then minQ (s11 rr (i - 1)) (s11 rr (i + 1))
  else maxQ (s11 rr (i - 1)) (s11 rr (i + 1))

/-- Subspace 3 (`s22`): `np.hstack([max-or-min of the next two diffs, 0, 0])`
with the min taken where `dRR >= 0`. -/
def s22 (rr : List ℚ) (i : ℕ) : ℚ :=
  if rr.length ≤ i + 2 then 0
  else if 0 ≤ s11 rr i then minQ (s11 rr (i + 1)) (s11 rr (i + 2))
  else maxQ (s11 rr (i + 1)) (s11 rr (i + 2))

/-- Ectopic decision: `(s11 > 1 ∧ s12 < -c1*s11 - c2) ∨ (s11 < -1 ∧
s12 > -c1*s11 + c2)`, then `ectopic[-2:] = False` and `ectopic[:2] = False`. -/
def ectopicF (rr : List ℚ) (i : ℕ) : Bool :=
  (decide (2 ≤ i) && decide (i + 2 < rr.length)) &&
    ((decide (1 < s11 rr i) && decide (s12 rr i < -c1Art * s11 rr i - c2Art)) ||
     (decide (s11 rr i < -1) && decide (-c1Art * s11 rr i + c2Art < s12 rr i)))

/-- `np.median(rr)` over the whole series. -/
def medGlobal (rr : List ℚ) : ℚ := medianQ rr

/-- Initial long decision (detection.py line 584):
`(s11 > 1 ∧ s22 < -1) ∨ (|mRR| > 3 ∧ rr > median(rr))`. -/
def longInitial (rr : List ℚ) (i : ℕ) : Bool :=
  (decide (1 < s11 rr i) && decide (s22 rr i < -1)) ||
  (decide (3 < qabs (mRRn rr i)) && decide (medGlobal rr < rrAt rr i))

/-- Initial short decision (detection.py line 585):
`(s11 < -1 ∧ s22 > 1) ∨ (|mRR| > 3 ∧ rr ≤ median(rr))`. -/
def shortInitial (rr : List ℚ) (i : ℕ) : Bool :=
  (decide (s11 rr i < -1) && decide (1 < s22 rr i)) ||
  (decide (3 < qabs (mRRn rr i)) && decide (rrAt rr i ≤ medGlobal rr))

/-- Python `x is True` where `x` is a numpy boolean scalar: a `numpy.bool_`
object is never identical to the Python `True` singleton, so the identity
test is always `False`. -/
def npBoolIsPyTrue (_b : Bool) : Bool := false

/-- The forward-propagation loop of `rr_artefacts` (detection.py lines
587-592), verbatim: for `i` in `0 .. n-3`, when `cond[i] is True` and
`|s11[i+1]| < |s11[i+2]|`, set `cond[i+1] = True`.  Because of the `is True`
identity test on a numpy boolean this loop never changes `cond`. -/
def propagateOutlier (rr : List ℚ) (cond : Array Bool) : Array Bool :=
  (List.range (cond.size - 2)).foldl
    (fun c i =>
      if npBoolIsPyTrue (c.getD i false) then
        if qabs (s11 rr (i + 1)) < qabs (s11 rr (i + 2)) then c.setD (i + 1) true else c
      else c)
    cond

/-- The propagation loop is the identity: its guard `cond[i] is True` never
holds for a numpy boolean. -/
theorem propagateOutlier_eq (rr : List ℚ) (cond : Array Bool) :
    propagateOutlier rr cond = cond := by
  unfold propagateOutlier
  generalize List.range (cond.size - 2) = l
  induction l generalizing cond with
  | nil => rfl
  | cons a t ih => simp only [List.foldl_cons, npBoolIsPyTrue, if_false]; exact ih cond

/-- A long/short mask after the propagation loop, read back pointwise. -/
def maskProp (rr : List ℚ) (init : ℕ → Bool) (i : ℕ) : Bool :=
  (propagateOutlier rr ((List.range rr.length).map init).toArray).getD i false

theorem maskProp_eq (rr : List ℚ) (init : ℕ → Bool) (i : ℕ) :
    maskProp rr init i = if i < rr.length then init i else false := by
  unfold maskProp
  rw [propagateOutlier_eq]
  rcases Nat.lt_or_ge i rr.length with h | h
  · simp [Array.getD, h]
  · simp [Array.getD, Nat.not_lt.mpr h, Nat.le_trans (Nat.le_of_eq (List.length_map ..).symm)]

/-- Long mask after ectopic exclusion (`longBeats[ectopic] = False`). -/
def longNoEct (rr : List ℚ) (i : ℕ) : Bool :=
  maskProp rr (longInitial rr) i && !(ectopicF rr i)

/-- Short mask after ectopic exclusion (`shortBeats[ectopic] = False`). -/
def shortNoEct (rr : List ℚ) (i : ℕ) : Bool :=
  maskProp rr (shortInitial rr) i && !(ectopicF rr i)

/-- Missed mask: `|rr/2 - medRR| < th2` restricted to the long mask
(`missed = missed & longBeats`). -/
def missedF (rr : List ℚ) (i : ℕ) : Bool :=
  decide (qabs (rrAt rr i / 2 - medRR rr i) < th2 rr i) && longNoEct rr i

/-- Long mask after missed removal (`longBeats[missed] = False`). -/
def longNoMiss (rr : List ℚ) (i : ℕ) : Bool :=
  longNoEct rr i && !(missedF rr i)

/-- The next interval, `np.append(rr[1:], 0)`. -/
def nextRR (rr : List ℚ) (i : ℕ) : ℚ :=
  if i + 1 < rr.length then rrAt rr (i + 1) else 0

/-- Extra mask: `|rr + next - medRR| < th2` restricted to the short mask
(`extra = extra & shortBeats`). -/
def extraF (rr : List ℚ) (i : ℕ) : Bool :=
  decide (qabs (rrAt rr i + nextRR rr i - medRR rr i) < th2 rr i) && shortNoEct rr i

/-- Short mask after extra removal (`shortBeats[extra] = False`). -/
def shortNoExtra (rr : List ℚ) (i : ℕ) : Bool :=
  shortNoEct rr i && !(extraF rr i)

/-- Final long mask, after `longBeats[0], longBeats[-1] = False, False`. -/
def longFinal (rr : List ℚ) (i : ℕ) : Bool :=
  longNoMiss rr i && !(decide (i = 0)) && !(decide (i + 1 = rr.length))

/-- Final short mask, after `shortBeats[0], shortBeats[-1] = False, False`. -/
def shortFinal (rr : List ℚ) (i : ℕ) : Bool :=
  shortNoExtra rr i && !(decide (i = 0)) && !(decide (i + 1 = rr.length))

/-- The dictionary returned by `rr_artefacts`: seven aligned sequences plus
two thresholds, all of the length of the input series.  The embedding covers
the default `input_type="rr_ms"`; the conversion for the other input types
is `systole.utils.input_conversion`, outside detection.py (and every use of
`rr_artefacts` in the claims below passes millisecond intervals). -/
structure ArtefactReport where
  subspace1 : List ℚ
  subspace2 : List ℚ
  subspace3 : List ℚ
  mRR : List ℚ
  ectopic : List Bool
  long : List Bool
  short : List Bool
  missed : List Bool
  extra : List Bool
  threshold1 : List ℚ
  threshold2 : List ℚ
deriving DecidableEq, Repr

deriving instance DecidableEq for Except

/-- The Python-level failures the embedded code can raise. -/
inductive PyErr where
  /-- numpy `IndexError` (out-of-bounds index or mismatched boolean mask). -/
  | indexError : PyErr
  /-- Python `ZeroDivisionError` (integer division by a zero sampling rate). -/
  | zeroDivision : PyErr
  /-- pandas `ValueError` for a non-positive rolling window. -/
  | invalidWindow : PyErr
  /-- scipy `ValueError`: `distance` must be greater or equal to 1. -/
  | invalidDistance : PyErr
  /-- numpy `ValueError` from `np.interp` with an empty sample-point array. -/
  | emptyInterp : PyErr
  /-- The `ValueError` branch of `ecg_peaks` for an unrecognized method. -/
  | unknownMethod : PyErr
  /-- The `ValueError` branch of `rsp_peaks` for an invalid kind. -/
  | invalidKind : PyErr
  /-- Python `UnboundLocalError`: a local variable referenced before assignment. -/
  | unboundLocal : PyErr
  /-- The `ValueError` branch of `ppg_peaks` for malformed clipping thresholds. -/
  | invalidThreshold : PyErr
deriving DecidableEq, Repr

/-- The `rr_artefacts` report, materialised for an interval series of length
at least 2 (the arrays of the dictionary literal of detection.py lines
612-624). -/
def rrArtefacts (rr : List ℚ) : ArtefactReport where
  subspace1 := (List.range rr.length).map (s11 rr)
  subspace2 := (List.range rr.length).map (s12 rr)
  subspace3 := (List.range rr.length).map (s22 rr)
  mRR := (List.range rr.length).map (mRRn rr)
  ectopic := (List.range rr.length).map (ectopicF rr)
  long := (List.range rr.length).map (longFinal rr)
  short := (List.range rr.length).map (shortFinal rr)
  missed := (List.range rr.length).map (missedF rr)
  extra := (List.range rr.length).map (extraF rr)
  threshold1 := (List.range rr.length).map (th1 rr)
  threshold2 := (List.range rr.length).map (th2 rr)

/-- `rr_artefacts` as called: on a series of length 0 the line
`dRR[0] = dRR[1:].mean()` raises `IndexError`; on a series of length 1 the
boolean-mask assignment `s12[dRR < 0] = mi[dRR < 0]` raises `IndexError`
(the hstacked `ma` has length 2 while the mask has length 1).  From length 2
on, the function returns the report. -/
def rrArtefactsE (rr : List ℚ) : Except PyErr ArtefactReport :=
  if rr.length < 2 then .error .indexError else .ok (rrArtefacts rr)

/-! ## Signals with NaN

Rolling statistics with pandas' default `min_periods` leave NaN at the
window margins; a signal sample is therefore embedded as `Option ℚ`, with
`none` for NaN.  Arithmetic propagates `none` and every comparison against
`none` is false, as for IEEE NaN. -/

/-- A float sample: `none` is NaN. -/
abbrev QV := Option ℚ

/-- IEEE `<`: false whenever an operand is NaN. -/
def qvLt : QV → QV → Bool
  | some a, some b => decide (a < b)
  | _, _ => false

/-- IEEE `==`: false whenever an operand is NaN. -/
def qvEqV : QV → QV → Bool
  | some a, some b => decide (a = b)
  | _, _ => false

/-- The `height=0` filter of `find_peaks`: `x[peak] ≥ 0`, false on NaN. -/
def qvGe0 : QV → Bool
  | some a => decide (0 ≤ a)
  | none => false

/-- NaN-propagating negation. -/
def qvNeg : QV → QV := Option.map (fun a => -a)

/-- NaN-propagating addition. -/
def qvAdd : QV → QV → QV
  | some a, some b => some (a + b)
  | _, _ => none

/-- NaN-propagating subtraction. -/
def qvSub : QV → QV → QV
  | some a, some b => some (a - b)
  | _, _ => none

/-- NaN-propagating multiplication. -/
def qvMul : QV → QV → QV
  | some a, some b => some (a * b)
  | _, _ => none

/-- NaN-propagating division.  Division by an exact zero yields `0` under the
rational convention where numpy would produce inf/NaN; the claims proved
below never depend on a value at such a sample. -/
def qvDiv : QV → QV → QV
  | some a, some b => some (a / b)
  | _, _ => none

/-! ## scipy.signal.find_peaks (as called with `height=0` and a `distance`) -/

/-- The plateau scan of scipy `_local_maxima_1d`: advance `i_ahead` while
`i_ahead < i_max` and `x[i_ahead] == x[i]`. -/
def plateauEnd (x : List QV) (imax : ℕ) (v : QV) : ℕ → ℕ → ℕ
  | ia, 0 => ia
  | ia, fuel + 1 =>
    if decide (ia < imax) && qvEqV (x.getD ia none) v then plateauEnd x imax v (ia + 1) fuel
    else ia

theorem plateauEnd_ge (x : List QV) (imax : ℕ) (v : QV) :
    ∀ fuel ia, ia ≤ plateauEnd x imax v ia fuel := by
  intro fuel
  induction fuel with
  | zero => intro ia; exact Nat.le_refl ia
  | succ fuel ih =>
    intro ia
    unfold plateauEnd
    split
    · exact Nat.le_trans (Nat.le_succ ia) (ih (ia + 1))
    · exact Nat.le_refl ia

theorem plateauEnd_le (x : List QV) (imax : ℕ) (v : QV) :
    ∀ fuel ia, ia ≤ imax → plateauEnd x imax v ia fuel ≤ imax := by
  intro fuel
  induction fuel with
  | zero => intro ia h; exact h
  | succ fuel ih =>
    intro ia h
    unfold plateauEnd
    split
    · next hc =>
      have : ia < imax := by
        have := (Bool.and_eq_true ..).mp hc |>.1
        exact of_decide_eq_true this
      exact ih (ia + 1) this
    · exact h

/-- The main loop of scipy `_local_maxima_1d`: starting at `i = 1`, record the
midpoint of every strictly rising plateau followed by a strict fall, then
continue after the plateau. -/
def lmAux (x : List QV) (imax : ℕ) : ℕ → ℕ → List ℕ
  | _, 0 => []
  | i, fuel + 1 =>
    if i < imax then
      if qvLt (x.getD (i - 1) none) (x.getD i none) then
        if qvLt (x.getD (plateauEnd x imax (x.getD i none) (i + 1) (x.length + 1)) none)
            (x.getD i none) then
          ((i + plateauEnd x imax (x.getD i none) (i + 1) (x.length + 1) - 1) / 2) ::
            lmAux x imax (plateauEnd x imax (x.getD i none) (i + 1) (x.length + 1) + 1) fuel
        else lmAux x imax (i + 1) fuel
      else lmAux x imax (i + 1) fuel
    else []

theorem lmAux_mem (x : List QV) (imax : ℕ) :
    ∀ fuel i j, j ∈ lmAux x imax i fuel → i ≤ j ∧ j < imax := by
  intro fuel
  induction fuel with
  | zero => intro i j h; exact absurd h (List.not_mem_nil j)
  | succ fuel ih =>
    intro i j h
    unfold lmAux at h
    split at h
    · next hi =>
      split at h
      · split at h
        · rcases List.mem_cons.mp h with he | ht
          · subst he
            have hge := plateauEnd_ge x imax (x.getD i none) (x.length + 1) (i + 1)
            have hle := plateauEnd_le x imax (x.getD i none) (x.length + 1) (i + 1) hi
            generalize plateauEnd x imax (x.getD i none) (i + 1) (x.length + 1) = ia at hge hle
            constructor <;> omega
          · have := ih (plateauEnd x imax (x.getD i none) (i + 1) (x.length + 1) + 1) j ht
            have hge := plateauEnd_ge x imax (x.getD i none) (x.length + 1) (i + 1)
            generalize plateauEnd x imax (x.getD i none) (i + 1) (x.length + 1) = ia at this hge
            constructor <;> omega
        · have := ih (i + 1) j h
          constructor <;> omega
      · have := ih (i + 1) j h
        constructor <;> omega
    · exact absurd h (List.not_mem_nil j)

theorem lmAux_pairwise (x : List QV) (imax : ℕ) :
    ∀ fuel i, (lmAux x imax i fuel).Pairwise (· < ·) := by
  intro fuel
  induction fuel with
  | zero => intro i; exact List.Pairwise.nil
  | succ fuel ih =>
    intro i
    unfold lmAux
    split
    · next hi =>
      split
      · split
        · refine List.pairwise_cons.mpr ⟨?_, ih _⟩
          intro j hj
          have hjm := lmAux_mem x imax fuel _ j hj
          have hge := plateauEnd_ge x imax (x.getD i none) (x.length + 1) (i + 1)
          generalize plateauEnd x imax (x.getD i none) (i + 1) (x.length + 1) = ia at hjm hge ⊢
          omega
        · exact ih (i + 1)
      · exact ih (i + 1)
    · exact List.Pairwise.nil

/-- `_local_maxima_1d` on the whole signal: `i_max = len - 1`, start at 1,
with enough fuel for the whole scan. -/
def localMaxima (x : List QV) : List ℕ := lmAux x (x.length - 1) 1 (x.length + 1)

/-- Stable ascending comparison used for the argsort of peak heights inside
the distance selection (NaN sorts last, as in numpy; ties keep the original
order, which numpy's unstable introsort does not promise — the difference
selects among equal-height peaks closer than `distance` only). -/
def qvLeB : QV → QV → Bool
  | some a, some b => decide (a ≤ b)
  | none, _ => false
  | some _, none => true

/-- Insertion step of the stable argsort. -/
def insertIdxByVal (p : ℕ × QV) : List (ℕ × QV) → List (ℕ × QV)
  | [] => [p]
  | q :: qs => if qvLeB p.2 q.2 then p :: q :: qs else q :: insertIdxByVal p qs

/-- `np.argsort` (ascending, made stable) of a list of heights. -/
def argsortAsc (vals : List QV) : List ℕ :=
  (vals.enum.foldr insertIdxByVal []).map (fun p => p.1)

/-- The downward clearing loop of `_select_by_peak_distance`:
`k = j - 1; while 0 <= k and peaks[j] - peaks[k] < distance: keep[k] = 0`. -/
def clearLower (peaks : Array ℕ) (d pj : ℕ) : ℕ → Array Bool → Array Bool
  | k, keep =>
    if pj - peaks.getD k 0 < d then
      let keep := keep.setD k false
      match k with
      | 0 => keep
      | kp + 1 => clearLower peaks d pj kp keep
    else keep

/-- The upward clearing loop of `_select_by_peak_distance`:
`k = j + 1; while k < size and peaks[k] - peaks[j] < distance: keep[k] = 0`. -/
def clearUpper (peaks : Array ℕ) (d pj : ℕ) : ℕ → ℕ → Array Bool → Array Bool
  | _, 0, keep => keep
  | k, fuel + 1, keep =>
    if decide (k < peaks.size) && decide (peaks.getD k 0 - pj < d) then
      clearUpper peaks d pj (k + 1) fuel (keep.setD k false)
    else keep

/-- `_select_by_peak_distance`: walk the peaks from highest priority (height)
down, and for each still-kept peak clear every neighbour closer than
`distance` on both sides. -/
def distKeep (peaks : List ℕ) (heights : List QV) (d : ℕ) : List Bool :=
  let pa := peaks.toArray
  let keep :=
    (argsortAsc heights).reverse.foldl
      (fun keep j =>
        if keep.getD j false then
          let keep :=
            match j with
            | 0 => keep
            | jp + 1 => clearLower pa d (pa.getD j 0) jp keep
          clearUpper pa d (pa.getD j 0) (j + 1) pa.size keep
        else keep)
      (Array.mkArray peaks.length true)
  keep.toList

/-- Boolean-mask selection `l[keep]` (numpy requires the lengths to agree at
every use below). -/
def applyKeep {α : Type} (l : List α) (keep : List Bool) : List α :=
  (l.zip keep).filterMap (fun p => if p.2 then some p.1 else none)

theorem applyKeep_sublist {α : Type} (l : List α) (keep : List Bool) :
    (applyKeep l keep).Sublist l := by
  induction l generalizing keep with
  | nil => simp [applyKeep]
  | cons a t ih =>
    cases keep with
    | nil => simp [applyKeep]
    | cons b kt =>
      cases b with
      | false =>
        have he : applyKeep (a :: t) (false :: kt) = applyKeep t kt := by simp [applyKeep]
        rw [he]; exact (ih kt).cons a
      | true =>
        have he : applyKeep (a :: t) (true :: kt) = a :: applyKeep t kt := by simp [applyKeep]
        rw [he]; exact (ih kt).cons₂ a

/-- `scipy.signal.find_peaks(x, height=0, distance=d)` as used by the
detection pipelines: local maxima with plateau midpoints, the height filter
`x[peak] ≥ 0`, then the distance selection. -/
def findPeaks (x : List QV) (d : ℕ) : List ℕ :=
  let lm := localMaxima x
  let hp := lm.filter (fun p => qvGe0 (x.getD p none))
  applyKeep hp (distKeep hp (hp.map (fun p => x.getD p none)) d)

theorem findPeaks_sublist_lm (x : List QV) (d : ℕ) :
    (findPeaks x d).Sublist (localMaxima x) :=
  (applyKeep_sublist ..).trans (List.filter_sublist _)

theorem findPeaks_pairwise (x : List QV) (d : ℕ) :
    (findPeaks x d).Pairwise (· < ·) :=
  (lmAux_pairwise x (x.length - 1) (x.length + 1) 1).sublist (findPeaks_sublist_lm x d)

theorem findPeaks_mem_lt (x : List QV) (d : ℕ) :
    ∀ j ∈ findPeaks x d, j < x.length := by
  intro j hj
  have hm := (findPeaks_sublist_lm x d).mem hj
  have := lmAux_mem x (x.length - 1) (x.length + 1) 1 j hm
  omega

/-- `np.where(v)[0]` on a boolean vector: the indices of the true samples, in
ascending order. -/
def natWhere (v : List Bool) : List ℕ :=
  (List.range v.length).filter (fun j => v.getD j false)

/-- numpy fancy-index assignment `v[idx] = True`: the index array is
validated first, then every listed position is set. -/
def npSetTrue (v : List Bool) (idx : List ℕ) : Except PyErr (List Bool) :=
  if idx.all (fun i => decide (i < v.length)) then
    .ok (idx.foldl (fun a i => a.set i true) v)
  else .error .indexError

/-- numpy fancy-index assignment `v[idx] = 0` on a boolean vector (used by
the extra-peak pruning; there the indices are detected peaks and are always
in range). -/
def npClearIdx (v : List Bool) (idx : List ℕ) : List Bool :=
  idx.foldl (fun a i => a.set i false) v

/-- `np.diff` of a peak-index list, as a rational interval series. -/
def diffQ (idx : List ℕ) : List ℚ :=
  (idx.zip idx.tail).map (fun p => (Nat.cast p.2 : ℚ) - (Nat.cast p.1 : ℚ))

/-! ## interpolate_clipping (detection.py lines 629-734)

`clean_signal = np.asarray(signal)` returns the caller's ndarray itself, so
until the first `clean_signal = f(time)` rebinding the edge nudges write into
the caller's array.  The embedding therefore returns, besides the value of
`clean_signal` at the end, the content of the caller-supplied array after the
call and whether the returned value is still the caller's object. -/

/-- Result of `interpolate_clipping`. -/
structure ClipOut where
  /-- Content of the caller-supplied ndarray after the call. -/
  caller : List ℚ
  /-- The returned array (the final value of `clean_signal`). -/
  ret : List ℚ
  /-- Whether the returned value is the caller's ndarray itself. -/
  sameObj : Bool
deriving DecidableEq, Repr

/-- Second half of the edge guard of `interpolate_clipping`: nudge the last
sample by `delta` when it equals the threshold `t`. -/
def edgeNudgeLast (s : List ℚ) (t delta : ℚ) : List ℚ :=
  if s.getD (s.length - 1) 0 = t then s.set (s.length - 1) (t + delta) else s

/-- The edge guard of `interpolate_clipping`: nudge the first and then the
last sample by `delta` when they equal the threshold `t`. -/
def edgeNudge (s : List ℚ) (t delta : ℚ) : List ℚ :=
  edgeNudgeLast (if s.getD 0 0 = t then s.set 0 (t + delta) else s) t delta

/-- The support of one interpolation pass: `np.where(cur < t)` for the max
threshold, `np.where(cur > t)` for the min threshold. -/
def clipSupport (cur : List ℚ) (t : ℚ) (isMax : Bool) : List ℕ :=
  (List.range cur.length).filter
    (fun j => if isMax then decide (cur.getD j 0 < t) else decide (t < cur.getD j 0))

/-- Evaluate the `interp1d` function built on the support over the whole time
axis.  The interpolant constructor `mk` (support times, support values, then
a pointwise function) is a parameter of the embedding: cubic-spline values
are not rational, and no claim below depends on them. -/
def clipEval (mk : List ℚ → List ℚ → ℚ → ℚ) (time cur : List ℚ) (sup : List ℕ) : List ℚ :=
  time.map (mk (sup.map Nat.cast) (sup.map (fun j => cur.getD j 0)))

/-- `interpolate_clipping(signal, min_threshold, max_threshold, kind)`.
On an empty ndarray with a threshold given, `clean_signal[0]` raises
`IndexError`.  The failure modes internal to `interp1d` itself (a cubic
spline needs at least four support points) are outside the model, which
treats the interpolant as a total function. -/
def interpolate_clipping (mk : List ℚ → List ℚ → ℚ → ℚ) (signal : List ℚ)
    (min_threshold max_threshold : Option ℚ) : Except PyErr ClipOut :=
  let time : List ℚ := (List.range signal.length).map Nat.cast
  match max_threshold with
  | some tmax =>
    if signal.length = 0 then .error .indexError
    else
      let nudged := edgeNudge signal tmax (-1)
      let ret1 := clipEval mk time nudged (clipSupport nudged tmax true)
      match min_threshold with
      | some tmin =>
        let nudged2 := edgeNudge ret1 tmin 1
        let ret2 := clipEval mk time nudged2 (clipSupport nudged2 tmin false)
        .ok ⟨nudged, ret2, false⟩
      | none => .ok ⟨nudged, ret1, false⟩
  | none =>
    match min_threshold with
    | some tmin =>
      if signal.length = 0 then .error .indexError
      else
        let nudged := edgeNudge signal tmin 1
        let ret1 := clipEval mk time nudged (clipSupport nudged tmin false)
        .ok ⟨nudged, ret1, false⟩
    | none => .ok ⟨signal, signal, true⟩

/-- A concrete stand-in interpolant used to instantiate the `mk` parameter in
closed statements (the components they inspect do not depend on it). -/
def constInterp : List ℚ → List ℚ → ℚ → ℚ := fun _ _ _ => 0

/-! ## External collaborators of the detection pipelines

The pipelines call a few functions that are not algorithmic content of
`detection.py`: the real square root inside pandas/numpy standard
deviations (irrational, so not representable over `ℚ`), the
`scipy.interpolate.interp1d` spline constructor, the ECG detectors of the
`sleepecg` and `systole.detectors` packages, and
`systole.utils.find_clipping`.  They enter the embedding as parameters, so
every universal theorem below holds for the real collaborators as well. -/

/-- Parameters standing for the external collaborators. -/
structure Externals where
  /-- The real square root (used by `rolling(...).std()` and `ndarray.std()`). -/
  sqrtQ : ℚ → ℚ
  /-- `scipy.interpolate.interp1d`: support times, support values, then the
  interpolating function. -/
  mkInterp : List ℚ → List ℚ → ℚ → ℚ
  /-- `systole.utils.find_clipping` (repository code outside detection.py). -/
  findClip : List ℚ → Option ℚ × Option ℚ
  /-- `sleepecg.detect_heartbeats`. -/
  detectSleepecg : List ℚ → ℤ → List ℕ
  /-- `systole.detectors.hamilton`. -/
  detectHamilton : List ℚ → ℤ → List ℕ
  /-- `systole.detectors.christov`. -/
  detectChristov : List ℚ → ℤ → List ℕ
  /-- `systole.detectors.engelse_zeelenberg`. -/
  detectEngelse : List ℚ → ℤ → List ℕ
  /-- `systole.detectors.pan_tompkins`. -/
  detectPanTompkins : List ℚ → ℤ → List ℕ
  /-- `systole.detectors.moving_average`. -/
  detectMovingAverage : List ℚ → ℤ → List ℕ

/-- A concrete instantiation of the external parameters for closed
statements. -/
def dummyExternals : Externals where
  sqrtQ := fun _ => 0
  mkInterp := constInterp
  findClip := fun _ => (none, none)
  detectSleepecg := fun _ _ => []
  detectHamilton := fun _ _ => []
  detectChristov := fun _ _ => []
  detectEngelse := fun _ _ => []
  detectPanTompkins := fun _ _ => []
  detectMovingAverage := fun _ _ => []

/-! ## Resampling and rolling statistics -/

/-- Python `int(...)`: truncation toward zero. -/
def pyInt (q : ℚ) : ℤ := Int.tdiv q.num (q.den : ℤ)

/-- Ceiling of a rational. -/
def qceil (a : ℚ) : ℤ := -Rat.floor (-a)

/-- `np.arange(0, stop, step)` with exact rational arithmetic: the element
count is `⌈stop/step⌉` (clamped at zero). -/
def arangeQ (stop step : ℚ) : List ℚ :=
  (List.range (qceil (stop / step)).toNat).map (fun k => (Nat.cast k : ℚ) * step)

/-- `np.interp` for one query point over the pairs `zip xp fp`, assuming `xp`
increasing (numpy does not check this; the detection claims below never
depend on interpolated values where `xp` would decrease). -/
def npInterpScan : ℚ → List (ℚ × ℚ) → ℚ
  | _, [] => 0
  | _, [p] => p.2
  | t, p :: q :: rest =>
    if t ≤ p.1 then p.2
    else if t ≤ q.1 then p.2 + (t - p.1) * (q.2 - p.2) / (q.1 - p.1)
    else npInterpScan t (q :: rest)

/-- The resampling block shared by the three pipelines: skipped when the two
rates agree; `len(x)/sfreq` with a zero rate raises `ZeroDivisionError`;
`np.interp` with an empty sample-point array raises `ValueError`. -/
def resampleE (x : List ℚ) (sfreq new_sfreq : ℤ) : Except PyErr (List ℚ) :=
  if sfreq = new_sfreq then .ok x
  else if sfreq = 0 ∨ new_sfreq = 0 then .error .zeroDivision
  else if x.length = 0 then .error .emptyInterp
  else
    .ok ((arangeQ ((x.length : ℚ) / (sfreq : ℚ)) (1 / (new_sfreq : ℚ))).map
      (fun t => npInterpScan t ((arangeQ ((x.length : ℚ) / (sfreq : ℚ)) (1 / (sfreq : ℚ))).zip x)))

/-- Values of the pandas centered rolling window of width `w` at position
`i`: pandas computes trailing windows and shifts the labels by
`(w - 1) / 2`, so the window covers `[i + (w-1)/2 - (w-1), i + (w-1)/2]` —
symmetric for odd `w`, leaning one sample to the past for even `w`. -/
def windowSliceQV (w : ℕ) (xs : List QV) (i : ℕ) : List QV :=
  ((List.range xs.length).filter
      (fun j => decide (i + (w - 1) / 2 < j + w) && decide (j ≤ i + (w - 1) / 2))).map
    (fun j => xs.getD j none)

/-- One pandas rolling-mean value with the default `min_periods = window`:
NaN unless the window holds `w` non-NaN samples. -/
def qvWinMean (w : ℕ) (win : List QV) : QV :=
  if win.length = w && win.all (fun v => v.isSome) then some (meanQ (win.filterMap id))
  else none

/-- `pandas.rolling(w, center=True).mean()` with default `min_periods`. -/
def rollMeanQV (w : ℕ) (xs : List QV) : List QV :=
  (List.range xs.length).map (fun i => qvWinMean w (windowSliceQV w xs i))

/-- One pandas rolling-std value (`ddof = 1`): NaN unless the window holds
`w` non-NaN samples, and NaN for `w = 1` (zero degrees of freedom). -/
def qvWinStd (sq : ℚ → ℚ) (w : ℕ) (win : List QV) : QV :=
  if win.length = w && win.all (fun v => v.isSome) then
    if w ≤ 1 then none
    else
      some (sq (((win.filterMap id).map (fun v => (v - meanQ (win.filterMap id)) ^ 2)).sum /
        ((w : ℚ) - 1)))
  else none

/-- `pandas.rolling(w, center=True).std()` with default `min_periods`. -/
def rollStdQV (sq : ℚ → ℚ) (w : ℕ) (xs : List QV) : List QV :=
  (List.range xs.length).map (fun i => qvWinStd sq w (windowSliceQV w xs i))

/-- `np.sign`, NaN-propagating. -/
def qvSign : QV → QV
  | some a => some (if a < 0 then -1 else if a = 0 then 0 else 1)
  | none => none

/-- `fillna(method="ffill")` scan: carry the last non-NaN value forward. -/
def ffillAux : QV → List QV → List QV
  | _, [] => []
  | carry, a :: rest =>
    (if a.isSome then a else carry) :: ffillAux (if a.isSome then a else carry) rest

/-- `fillna(method="ffill")`. -/
def ffill (l : List QV) : List QV := ffillAux none l

/-- `fillna(method="bfill")`. -/
def bfill (l : List QV) : List QV := (ffillAux none l.reverse).reverse

/-- `ndarray.mean()`: NaN when the array is empty or holds a NaN. -/
def meanQVall (xs : List QV) : QV :=
  if xs.isEmpty || xs.any (fun v => v.isNone) then none else some (meanQ (xs.filterMap id))

/-- `ndarray.std()` (`ddof = 0`): NaN when the array is empty or holds NaN. -/
def stdQVall (sq : ℚ → ℚ) (xs : List QV) : QV :=
  if xs.isEmpty || xs.any (fun v => v.isNone) then none
  else
    some (sq (((xs.filterMap id).map (fun v => (v - meanQ (xs.filterMap id)) ^ 2)).sum /
      ((xs.filterMap id).length : ℚ)))

/-- The pandas guard on a rolling window: `ValueError` unless it is a
positive integer. -/
def checkWindow (wp : ℤ) : Except PyErr ℕ :=
  if wp ≤ 0 then .error .invalidWindow else .ok wp.toNat

/-- The scipy guard on `find_peaks`' `distance`: at least 1. -/
def checkDistance (dp : ℤ) : Except PyErr ℕ :=
  if dp < 1 then .error .invalidDistance else .ok dp.toNat

/-! ## ppg_peaks (detection.py lines 21-199)

Signals in the embedding are NaN-free `List ℚ`, so the `clean_nan` branch
(`np.isnan(x).any()` is then always false) and the `verbose` flag are
dropped from the signature. -/

/-- The clipping-threshold argument of `ppg_peaks`: the `"auto"` sentinel, a
two-element pair, or anything else (the `ValueError` branch). -/
inductive ClipThresholds where
  | auto : ClipThresholds
  | pair (tmin tmax : Option ℚ) : ClipThresholds
  | malformed : ClipThresholds
deriving DecidableEq, Repr

/-- The clipping-correction block of `ppg_peaks` (lines 139-155). -/
def ppgClipStep (ext : Externals) (x : List ℚ) (clipping : Bool) (cth : ClipThresholds) :
    Except PyErr (List ℚ) :=
  if clipping then
    match cth with
    | .auto =>
      (interpolate_clipping ext.mkInterp x (ext.findClip x).1 (ext.findClip x).2).map ClipOut.ret
    | .pair tmin tmax => (interpolate_clipping ext.mkInterp x tmin tmax).map ClipOut.ret
    | .malformed => .error .invalidThreshold
  else .ok x

/-- The enhancement-and-threshold block of `ppg_peaks` (lines 157-180):
optional moving average, optional signed squaring, then subtraction of the
rolling mean plus rolling standard deviation. -/
def ppgEnhanceThreshold (ext : Externals) (y : List ℚ) (w : ℕ) (moving_average : Bool)
    (moving_average_length : ℚ) (peak_enhancement : Bool) (new_sfreq : ℤ) : List QV :=
  let xq :=
    if moving_average then
      rollMeanQV (max (pyInt ((new_sfreq : ℚ) * moving_average_length)).toNat 1) (y.map some)
    else y.map some
  let xe := if peak_enhancement then xq.map (fun v => qvMul (qvMul v v) (qvSign v)) else xq
  (List.range xe.length).map (fun i =>
    qvSub (xe.getD i none)
      (qvAdd ((rollMeanQV w xe).getD i none) ((rollStdQV ext.sqrtQ w xe).getD i none)))

/-- `ppg_peaks` up to the thresholded signal: returns the resampled signal
(copied for output at line 136) and the signal the peaks are searched in. -/
def ppgThreshold (ext : Externals) (signal : List ℚ) (sfreq : ℤ) (win : ℚ) (new_sfreq : ℤ)
    (clipping : Bool) (cth : ClipThresholds) (moving_average : Bool) (moving_average_length : ℚ)
    (peak_enhancement : Bool) : Except PyErr (List ℚ × List QV) := do
  let x ← resampleE signal sfreq new_sfreq
  let y ← ppgClipStep ext x clipping cth
  let w ← checkWindow (pyInt ((new_sfreq : ℚ) * win))
  .ok (x, ppgEnhanceThreshold ext y w moving_average moving_average_length peak_enhancement
    new_sfreq)

/-- `ppg_peaks` up to the boolean peak vector (lines 183-187): the detected
peaks as `find_peaks(x, height=0, distance=int(new_sfreq*distance))`, set
into a zero vector.  Returns the resampled signal, the vector, and the
detected index list. -/
def ppgDetect (ext : Externals) (signal : List ℚ) (sfreq : ℤ) (win : ℚ) (new_sfreq : ℤ)
    (clipping : Bool) (cth : ClipThresholds) (moving_average : Bool) (moving_average_length : ℚ)
    (peak_enhancement : Bool) (distance : ℚ) : Except PyErr (List ℚ × List Bool × List ℕ) := do
  let (res, thr) ← ppgThreshold ext signal sfreq win new_sfreq clipping cth moving_average
    moving_average_length peak_enhancement
  let d ← checkDistance (pyInt ((new_sfreq : ℚ) * distance))
  let pk ← npSetTrue (List.replicate thr.length false) (findPeaks thr d)
  .ok (res, pk, findPeaks thr d)

/-- `ppg_peaks` (lines 21-199).  With `clean_extra` the detected intervals
`np.diff(np.where(peaks)[0])` are classified and the peaks selected by
`peaks_idx[1:][artefacts["extra"]]` are cleared. -/
def ppg_peaks (ext : Externals) (signal : List ℚ) (sfreq : ℤ) (win : ℚ) (new_sfreq : ℤ)
    (clipping : Bool) (cth : ClipThresholds) (moving_average : Bool) (moving_average_length : ℚ)
    (peak_enhancement : Bool) (distance : ℚ) (clean_extra : Bool) :
    Except PyErr (List ℚ × List Bool) := do
  let (res, pk, idx) ← ppgDetect ext signal sfreq win new_sfreq clipping cth moving_average
    moving_average_length peak_enhancement distance
  if clean_extra then
    let art ← rrArtefactsE (diffQ (natWhere pk))
    .ok (res, npClearIdx pk (applyKeep (idx.drop 1) art.extra))
  else .ok (res, pk)

/-! ## ecg_peaks (detection.py lines 202-313) -/

/-- The method dispatch of `ecg_peaks` (lines 289-306). -/
def ecgDispatch (ext : Externals) (method : String) (x : List ℚ) (fs : ℤ) :
    Except PyErr (List ℕ) :=
  if method = "sleepecg" then .ok (ext.detectSleepecg x fs)
  else if method = "hamilton" then .ok (ext.detectHamilton x fs)
  else if method = "christov" then .ok (ext.detectChristov x fs)
  else if method = "engelse-zeelenberg" then .ok (ext.detectEngelse x fs)
  else if method = "pan-tompkins" then .ok (ext.detectPanTompkins x fs)
  else if method = "moving-average" then .ok (ext.detectMovingAverage x fs)
  else .error .unknownMethod

/-- The recognized detector names of `ecg_peaks`. -/
def ecgMethods : List String :=
  ["sleepecg", "hamilton", "christov", "engelse-zeelenberg", "pan-tompkins", "moving-average"]

/-- Index of the largest sample within `size` of `p` (first occurrence). -/
def argmaxNb (sig : List ℚ) (p size : ℕ) : ℕ :=
  ((List.range sig.length).filter (fun j => decide (p ≤ j + size) && decide (j ≤ p + size))).foldl
    (fun best j => if sig.getD best 0 < sig.getD j 0 then j else best) p

/-- Modelled from the spec: `systole.utils.to_neighbour` (repository code not
under src/) "refine each detected index to the true local extremum within a
small neighborhood window"; each marked sample moves to the index of the
largest signal value within `size` samples, in a fresh vector of the same
length. -/
def to_neighbour (sig : List ℚ) (peaks : List Bool) (size : ℕ) : List Bool :=
  (natWhere peaks).foldl (fun acc p => acc.set (argmaxNb sig p size) true)
    (List.replicate peaks.length false)

/-- `ecg_peaks` (lines 202-313): resample, dispatch on the method name, set
the returned indices into a zero vector, and optionally refine each peak to
its local extremum.  As for `ppg_peaks`, the `clean_nan` branch is dropped:
signals over `ℚ` hold no NaN. -/
def ecg_peaks (ext : Externals) (signal : List ℚ) (sfreq new_sfreq : ℤ) (method : String)
    (find_local : Bool) (win_size : ℚ) : Except PyErr (List ℚ × List Bool) := do
  let x ← resampleE signal sfreq new_sfreq
  let idx ← ecgDispatch ext method x new_sfreq
  let pk ← npSetTrue (List.replicate x.length false) idx
  if find_local then .ok (x, to_neighbour x pk (pyInt (win_size * (new_sfreq : ℚ))).toNat)
  else .ok (x, pk)

/-! ## rsp_peaks (detection.py lines 316-428) -/

/-- The value returned by `rsp_peaks` besides the resampled signal: one
boolean vector or the pair `(peaks, troughs)`. -/
inductive RspOut where
  | single (v : List Bool) : RspOut
  | both (peaks troughs : List Bool) : RspOut
deriving DecidableEq, Repr

/-- The preprocessing of `rsp_peaks` (lines 398-411): centered rolling mean
of `int(sfreq*win)` samples back/forward filled, z-score, cube. -/
def rspEnhance (ext : Externals) (x : List ℚ) (w : ℕ) : List QV :=
  let sm := ffill (bfill (rollMeanQV w (x.map some)))
  let z := sm.map (fun v => qvDiv (qvSub v (meanQVall sm)) (stdQVall ext.sqrtQ sm))
  z.map (fun v => qvMul (qvMul v v) v)

/-- `rsp_peaks` (lines 316-428).  The two `"peaks" in kind` / `"troughs" in
kind` substring tests of the source, evaluated over the three admitted kind
strings, equal the equality disjunctions used here.  The return dispatch
keeps the source's misspelled `elif kind == "trough"` branch, so that for
`kind = "troughs"` the `else` branch returns the never-assigned `peaks`
local — `UnboundLocalError`. -/
def rsp_peaks (ext : Externals) (signal : List ℚ) (sfreq new_sfreq : ℤ) (win : ℚ)
    (kind : String) : Except PyErr (List ℚ × RspOut) :=
  if kind = "peaks" ∨ kind = "troughs" ∨ kind = "peaks-troughs" then do
    let x ← resampleE signal sfreq new_sfreq
    let w ← checkWindow (pyInt ((sfreq : ℚ) * win))
    let d ← checkDistance (2 * sfreq)
    let peaksOpt : Option (List Bool) ←
      if kind = "peaks" ∨ kind = "peaks-troughs" then do
        let pv ← npSetTrue (List.replicate x.length false) (findPeaks (rspEnhance ext x w) d)
        pure (some pv)
      else pure none
    let troughsOpt : Option (List Bool) ←
      if kind = "troughs" ∨ kind = "peaks-troughs" then do
        let tv ← npSetTrue (List.replicate x.length false)
          (findPeaks ((rspEnhance ext x w).map qvNeg) d)
        pure (some tv)
      else pure none
    if kind = "peaks" then
      match peaksOpt with
      | some p => .ok (x, .single p)
      | none => .error .unboundLocal
    else if kind = "trough" then
      match troughsOpt with
      | some t => .ok (x, .single t)
      | none => .error .unboundLocal
    else
      match peaksOpt, troughsOpt with
      | some p, some t => .ok (x, .both p t)
      | _, _ => .error .unboundLocal
  else .error .invalidKind

/-- The length condition of C8 for the respiration pipeline. -/
def rspLenOk (res : List ℚ) : RspOut → Prop
  | .single v => v.length = res.length
  | .both p t => p.length = res.length ∧ t.length = res.length

/-- Reading a packaged mask back at an index. -/
theorem getD_map_range {α : Type} (f : ℕ → α) (n i : ℕ) (d : α) :
    ((List.range n).map f).getD i d = if i < n then f i else d := by
  rcases Nat.lt_or_ge i n with h | h
  · simp [List.getD_eq_getElem?_getD, List.getElem?_map, List.getElem?_range, h]
  · rw [List.getD_eq_getElem?_getD, List.getElem?_eq_none (by simpa using h)]
    simp [Nat.not_lt.mpr h]

/- The Batteries rational operations are `@[irreducible]`, which blocks the
tactic-level evaluation used by `decide` on concrete inputs; the kernel is
unaffected.  Restore reducibility for this development. -/
attribute [local semireducible] Rat.mul Rat.inv Rat.add Rat.sub

/-! ## Helper lemmas -/

theorem except_bind_ok {ε α β : Type} (a : α) (f : α → Except ε β) :
    (Except.ok a : Except ε α) >>= f = f a := rfl

theorem except_bind_error {ε α β : Type} (e : ε) (f : α → Except ε β) :
    (Except.error e : Except ε α) >>= f = .error e := rfl

theorem except_pure_eq_ok {ε α : Type} (a : α) : (pure a : Except ε α) = .ok a := rfl

theorem except_map_ok {ε α β : Type} (f : α → β) (a : α) :
    (Except.ok a : Except ε α).map f = .ok (f a) := rfl

theorem except_map_error {ε α β : Type} (f : α → β) (e : ε) :
    (Except.error e : Except ε α).map f = .error e := rfl

theorem getD_cons_zero {α : Type} (a : α) (l : List α) (d : α) : (a :: l).getD 0 d = a := rfl

theorem getD_cons_succ {α : Type} (a : α) (l : List α) (k : ℕ) (d : α) :
    (a :: l).getD (k + 1) d = l.getD k d := rfl

theorem getD_set_bool (v : List Bool) (i j : ℕ) (b : Bool) :
    (v.set i b).getD j false = if i = j ∧ i < v.length then b else v.getD j false := by
  rw [List.getD_eq_getElem?_getD, List.getD_eq_getElem?_getD, List.getElem?_set]
  by_cases h1 : i = j
  · subst h1
    by_cases h2 : i < v.length
    · simp [h2]
    · rw [List.getElem?_eq_none (by omega)]
      simp [h2]
  · simp [h1]

theorem getD_oob (v : List Bool) (j : ℕ) (h : v.length ≤ j) : v.getD j false = false := by
  rw [List.getD_eq_getElem?_getD, List.getElem?_eq_none h]
  rfl

theorem getD_replicate_false (n j : ℕ) : (List.replicate n false).getD j false = false := by
  rw [List.getD_eq_getElem?_getD, List.getElem?_replicate]
  split <;> rfl

theorem foldl_set_length {α : Type} (b : α) (g : ℕ → ℕ) :
    ∀ (idx : List ℕ) (v : List α), (idx.foldl (fun a i => a.set (g i) b) v).length = v.length := by
  intro idx
  induction idx with
  | nil => intro v; rfl
  | cons i t ih => intro v; rw [List.foldl_cons, ih, List.length_set]

theorem foldl_setTrue_getD :
    ∀ (idx : List ℕ) (v : List Bool), (∀ i ∈ idx, i < v.length) → ∀ j,
      (idx.foldl (fun a i => a.set i true) v).getD j false =
        (v.getD j false || decide (j ∈ idx)) := by
  intro idx
  induction idx with
  | nil => intro v _ j; simp
  | cons i t ih =>
    intro v hb j
    rw [List.foldl_cons,
      ih _ (fun k hk => by rw [List.length_set]; exact hb k (List.mem_cons_of_mem i hk)) j,
      getD_set_bool]
    by_cases hj : i = j
    · subst hj
      simp [hb i (List.mem_cons_self ..)]
    · have hd : decide (j ∈ i :: t) = decide (j ∈ t) := by
        rw [decide_eq_decide]
        simp [List.mem_cons, Ne.symm hj]
      rw [if_neg (by simp [hj]), hd]

theorem foldl_setFalse_getD :
    ∀ (idx : List ℕ) (v : List Bool) (j : ℕ),
      (idx.foldl (fun a i => a.set i false) v).getD j false =
        (v.getD j false && !(decide (j ∈ idx))) := by
  intro idx
  induction idx with
  | nil => intro v j; simp
  | cons i t ih =>
    intro v j
    rw [List.foldl_cons, ih, getD_set_bool]
    by_cases hj : i = j
    · subst hj
      by_cases h2 : i < v.length
      · simp [h2]
      · rw [if_neg (by simp [h2]), getD_oob v i (by omega)]
        simp
    · have hd : decide (j ∈ i :: t) = decide (j ∈ t) := by
        rw [decide_eq_decide]
        simp [List.mem_cons, Ne.symm hj]
      rw [if_neg (by simp [hj]), hd]

theorem npClearIdx_getD (v : List Bool) (idx : List ℕ) (j : ℕ) :
    (npClearIdx v idx).getD j false = (v.getD j false && !(decide (j ∈ idx))) :=
  foldl_setFalse_getD idx v j

theorem npClearIdx_length (v : List Bool) (idx : List ℕ) :
    (npClearIdx v idx).length = v.length :=
  foldl_set_length false (fun i => i) idx v

theorem npSetTrue_ok_length (v : List Bool) (idx : List ℕ) (pk : List Bool)
    (h : npSetTrue v idx = .ok pk) : pk.length = v.length := by
  unfold npSetTrue at h
  split at h
  · cases h
    exact foldl_set_length true (fun i => i) idx v
  · cases h

theorem npSetTrue_error_eq (v : List Bool) (idx : List ℕ) (e : PyErr)
    (h : npSetTrue v idx = .error e) : e = .indexError := by
  unfold npSetTrue at h
  split at h
  · cases h
  · cases h
    rfl

theorem filter_range_mem_eq (idx : List ℕ) (n : ℕ) (hs : idx.Pairwise (· < ·))
    (hb : ∀ j ∈ idx, j < n) :
    (List.range n).filter (fun j => decide (j ∈ idx)) = idx := by
  have hnd1 : ((List.range n).filter (fun j => decide (j ∈ idx))).Nodup :=
    (List.nodup_range n).filter _
  have hnd2 : idx.Nodup := hs.imp (fun h => Nat.ne_of_lt h)
  have hmem : ∀ a, a ∈ (List.range n).filter (fun j => decide (j ∈ idx)) ↔ a ∈ idx := by
    intro a
    rw [List.mem_filter, List.mem_range]
    constructor
    · rintro ⟨_, h⟩
      exact of_decide_eq_true h
    · intro h
      exact ⟨hb a h, decide_eq_true h⟩
  have hperm := (List.perm_ext_iff_of_nodup hnd1 hnd2).mpr hmem
  have hsort1 : ((List.range n).filter (fun j => decide (j ∈ idx))).Sorted (· ≤ ·) :=
    ((List.pairwise_lt_range n).filter _).imp (fun h => Nat.le_of_lt h)
  have hsort2 : idx.Sorted (· ≤ ·) := hs.imp (fun h => Nat.le_of_lt h)
  exact List.eq_of_perm_of_sorted hperm hsort1 hsort2

theorem natWhere_foldl_setTrue (idx : List ℕ) (n : ℕ) (hs : idx.Pairwise (· < ·))
    (hb : ∀ j ∈ idx, j < n) :
    natWhere (idx.foldl (fun a i => a.set i true) (List.replicate n false)) = idx := by
  unfold natWhere
  rw [foldl_set_length true (fun i => i) idx, List.length_replicate]
  have hgetD : ∀ j,
      (idx.foldl (fun a i => a.set i true) (List.replicate n false)).getD j false =
        decide (j ∈ idx) := by
    intro j
    rw [foldl_setTrue_getD idx _ (fun i hi => by rw [List.length_replicate]; exact hb i hi) j,
      getD_replicate_false]
    simp
  rw [List.filter_congr (fun j _ => hgetD j)]
  exact filter_range_mem_eq idx n hs hb

theorem mem_applyKeep {α : Type} (a : α) :
    ∀ (l : List α) (keep : List Bool),
      a ∈ applyKeep l keep ↔ ∃ k, keep.getD k false = true ∧ l[k]? = some a := by
  intro l
  induction l with
  | nil =>
    intro keep
    simp [applyKeep]
  | cons x t ih =>
    intro keep
    cases keep with
    | nil =>
      constructor
      · intro h
        exact absurd h (by simp [applyKeep])
      · rintro ⟨k, hk, _⟩
        rw [show ([] : List Bool).getD k false = false from by cases k <;> rfl] at hk
        cases hk
    | cons b kt =>
      cases b with
      | false =>
        have he : applyKeep (x :: t) (false :: kt) = applyKeep t kt := by simp [applyKeep]
        rw [he, ih kt]
        constructor
        · rintro ⟨k, hk, hg⟩
          exact ⟨k + 1, by rw [getD_cons_succ]; exact hk, by simpa using hg⟩
        · rintro ⟨k, hk, hg⟩
          cases k with
          | zero => rw [getD_cons_zero] at hk; cases hk
          | succ k =>
            rw [getD_cons_succ] at hk
            exact ⟨k, hk, by simpa using hg⟩
      | true =>
        have he : applyKeep (x :: t) (true :: kt) = x :: applyKeep t kt := by simp [applyKeep]
        rw [he]
        constructor
        · intro h
          rcases List.mem_cons.mp h with he2 | ht
          · exact ⟨0, rfl, by simp [he2]⟩
          · rcases (ih kt).mp ht with ⟨k, hk, hg⟩
            exact ⟨k + 1, by rw [getD_cons_succ]; exact hk, by simpa using hg⟩
        · rintro ⟨k, hk, hg⟩
          cases k with
          | zero =>
            simp only [List.getElem?_cons_zero, Option.some.injEq] at hg
            exact List.mem_cons.mpr (Or.inl hg.symm)
          | succ k =>
            rw [getD_cons_succ] at hk
            exact List.mem_cons.mpr (Or.inr ((ih kt).mpr ⟨k, hk, by simpa using hg⟩))

theorem rollMeanQV_length (w : ℕ) (xs : List QV) : (rollMeanQV w xs).length = xs.length := by
  simp [rollMeanQV]

theorem ffillAux_length : ∀ (c : QV) (l : List QV), (ffillAux c l).length = l.length := by
  intro c l
  induction l generalizing c with
  | nil => rfl
  | cons a t ih => simp [ffillAux, ih]

theorem ffill_length (l : List QV) : (ffill l).length = l.length := ffillAux_length none l

theorem bfill_length (l : List QV) : (bfill l).length = l.length := by
  simp [bfill, ffillAux_length]

theorem rspEnhance_length (ext : Externals) (x : List ℚ) (w : ℕ) :
    (rspEnhance ext x w).length = x.length := by
  simp [rspEnhance, ffill_length, bfill_length, rollMeanQV_length]

theorem interpolate_clipping_ok_ret_length (mk : List ℚ → List ℚ → ℚ → ℚ) (s : List ℚ)
    (a b : Option ℚ) (out : ClipOut) (h : interpolate_clipping mk s a b = .ok out) :
    out.ret.length = s.length := by
  cases b with
  | some t =>
    simp only [interpolate_clipping] at h
    split at h
    · cases h
    · cases a with
      | some t2 =>
        cases h
        simp only [clipEval, List.length_map, List.length_range]
      | none =>
        cases h
        simp only [clipEval, List.length_map, List.length_range]
  | none =>
    cases a with
    | some t2 =>
      simp only [interpolate_clipping] at h
      split at h
      · cases h
      · cases h
        simp only [clipEval, List.length_map, List.length_range]
    | none =>
      simp only [interpolate_clipping] at h
      cases h
      rfl

theorem ppgClipStep_ok_length (ext : Externals) (x : List ℚ) (c : Bool) (cth : ClipThresholds)
    (y : List ℚ) (h : ppgClipStep ext x c cth = .ok y) : y.length = x.length := by
  cases cth with
  | auto =>
    simp only [ppgClipStep] at h
    split at h
    · cases hi : interpolate_clipping ext.mkInterp x (ext.findClip x).1 (ext.findClip x).2 with
      | error e => rw [hi, except_map_error] at h; cases h
      | ok out =>
        rw [hi, except_map_ok] at h
        cases h
        exact interpolate_clipping_ok_ret_length _ _ _ _ _ hi
    · cases h
      rfl
  | pair tmin tmax =>
    simp only [ppgClipStep] at h
    split at h
    · cases hi : interpolate_clipping ext.mkInterp x tmin tmax with
      | error e => rw [hi, except_map_error] at h; cases h
      | ok out =>
        rw [hi, except_map_ok] at h
        cases h
        exact interpolate_clipping_ok_ret_length _ _ _ _ _ hi
    · cases h
      rfl
  | malformed =>
    simp only [ppgClipStep] at h
    split at h
    · cases h
    · cases h
      rfl

theorem ppgEnhanceThreshold_length (ext : Externals) (y : List ℚ) (w : ℕ) (ma : Bool) (mal : ℚ)
    (pe : Bool) (nsf : ℤ) : (ppgEnhanceThreshold ext y w ma mal pe nsf).length = y.length := by
  unfold ppgEnhanceThreshold
  cases ma <;> cases pe <;> simp [rollMeanQV_length]

theorem ppgThreshold_ok_length (ext : Externals) (signal : List ℚ) (sfreq : ℤ) (win : ℚ)
    (nsf : ℤ) (clip : Bool) (cth : ClipThresholds) (ma : Bool) (mal : ℚ) (pe : Bool)
    (res : List ℚ) (thr : List QV)
    (h : ppgThreshold ext signal sfreq win nsf clip cth ma mal pe = .ok (res, thr)) :
    thr.length = res.length := by
  unfold ppgThreshold at h
  cases h1 : resampleE signal sfreq nsf with
  | error e => rw [h1, except_bind_error] at h; cases h
  | ok x =>
    rw [h1, except_bind_ok] at h
    cases h2 : ppgClipStep ext x clip cth with
    | error e => rw [h2, except_bind_error] at h; cases h
    | ok y =>
      rw [h2, except_bind_ok] at h
      cases h3 : checkWindow (pyInt ((nsf : ℚ) * win)) with
      | error e => rw [h3, except_bind_error] at h; cases h
      | ok w =>
        rw [h3, except_bind_ok] at h
        simp only [Except.ok.injEq, Prod.mk.injEq] at h
        obtain ⟨rfl, rfl⟩ := h
        rw [ppgEnhanceThreshold_length]
        exact ppgClipStep_ok_length ext x clip cth y h2

theorem ppgDetect_ok_spec (ext : Externals) (signal : List ℚ) (sfreq : ℤ) (win : ℚ) (nsf : ℤ)
    (clip : Bool) (cth : ClipThresholds) (ma : Bool) (mal : ℚ) (pe : Bool) (dist : ℚ)
    (res : List ℚ) (det : List Bool) (idx : List ℕ)
    (h : ppgDetect ext signal sfreq win nsf clip cth ma mal pe dist = .ok (res, det, idx)) :
    det.length = res.length ∧ idx.Pairwise (· < ·) ∧ (∀ j ∈ idx, j < det.length) ∧
      (∀ j, det.getD j false = decide (j ∈ idx)) ∧ natWhere det = idx := by
  unfold ppgDetect at h
  cases h1 : ppgThreshold ext signal sfreq win nsf clip cth ma mal pe with
  | error e => rw [h1, except_bind_error] at h; cases h
  | ok p =>
    obtain ⟨res0, thr⟩ := p
    rw [h1, except_bind_ok] at h
    simp only [] at h
    cases h2 : checkDistance (pyInt ((nsf : ℚ) * dist)) with
    | error e => rw [h2, except_bind_error] at h; cases h
    | ok d =>
      rw [h2, except_bind_ok] at h
      have hall : (findPeaks thr d).all
          (fun i => decide (i < (List.replicate thr.length false).length)) = true := by
        rw [List.all_eq_true]
        intro i hi
        rw [List.length_replicate]
        exact decide_eq_true (findPeaks_mem_lt thr d i hi)
      rw [show npSetTrue (List.replicate thr.length false) (findPeaks thr d) =
          .ok ((findPeaks thr d).foldl (fun a i => a.set i true)
            (List.replicate thr.length false)) from by
          unfold npSetTrue; rw [if_pos hall], except_bind_ok] at h
      simp only [Except.ok.injEq, Prod.mk.injEq] at h
      obtain ⟨rfl, rfl, rfl⟩ := h
      have hdl : ((findPeaks thr d).foldl (fun a i => a.set i true)
          (List.replicate thr.length false)).length = thr.length := by
        rw [foldl_set_length true (fun i => i), List.length_replicate]
      have hbou : ∀ i ∈ findPeaks thr d, i < (List.replicate thr.length false).length := by
        intro i hi
        rw [List.length_replicate]
        exact findPeaks_mem_lt thr d i hi
      refine ⟨?_, findPeaks_pairwise thr d, ?_, ?_, ?_⟩
      · rw [hdl]
        exact ppgThreshold_ok_length _ _ _ _ _ _ _ _ _ _ _ _ h1
      · intro j hj
        rw [hdl]
        exact findPeaks_mem_lt thr d j hj
      · intro j
        rw [foldl_setTrue_getD _ _ hbou j, getD_replicate_false]
        simp
      · exact natWhere_foldl_setTrue _ _ (findPeaks_pairwise thr d)
          (fun j hj => findPeaks_mem_lt thr d j hj)

theorem to_neighbour_length (sig : List ℚ) (peaks : List Bool) (size : ℕ) :
    (to_neighbour sig peaks size).length = peaks.length := by
  unfold to_neighbour
  have h2 := foldl_set_length true (fun p => argmaxNb sig p size) (natWhere peaks)
    (List.replicate peaks.length false)
  rw [List.length_replicate] at h2
  exact h2

theorem resampleE_error_kind (x : List ℚ) (s n : ℤ) (e : PyErr)
    (h : resampleE x s n = .error e) : e = .zeroDivision ∨ e = .emptyInterp := by
  unfold resampleE at h
  split at h
  · cases h
  · split at h
    · cases h
      exact Or.inl rfl
    · split at h
      · cases h
        exact Or.inr rfl
      · cases h

theorem ecgDispatch_not_mem (ext : Externals) (method : String) (x : List ℚ) (fs : ℤ)
    (h : ¬ method ∈ ecgMethods) : ecgDispatch ext method x fs = .error .unknownMethod := by
  simp only [ecgMethods, List.mem_cons, List.not_mem_nil, or_false] at h
  push_neg at h
  obtain ⟨h1, h2, h3, h4, h5, h6⟩ := h
  unfold ecgDispatch
  rw [if_neg h1, if_neg h2, if_neg h3, if_neg h4, if_neg h5, if_neg h6]

theorem ecgDispatch_mem (ext : Externals) (method : String) (x : List ℚ) (fs : ℤ)
    (h : method ∈ ecgMethods) : ∃ idx, ecgDispatch ext method x fs = .ok idx := by
  simp only [ecgMethods, List.mem_cons, List.not_mem_nil, or_false] at h
  unfold ecgDispatch
  rcases h with h | h | h | h | h | h <;> subst h <;> simp

theorem ecg_peaks_ok_length (ext : Externals) (signal : List ℚ) (sfreq nsf : ℤ)
    (method : String) (fl : Bool) (ws : ℚ) (res : List ℚ) (pk : List Bool)
    (h : ecg_peaks ext signal sfreq nsf method fl ws = .ok (res, pk)) :
    pk.length = res.length := by
  unfold ecg_peaks at h
  cases h1 : resampleE signal sfreq nsf with
  | error e => rw [h1, except_bind_error] at h; cases h
  | ok x =>
    rw [h1, except_bind_ok] at h
    cases h2 : ecgDispatch ext method x nsf with
    | error e => rw [h2, except_bind_error] at h; cases h
    | ok idx =>
      rw [h2, except_bind_ok] at h
      cases h3 : npSetTrue (List.replicate x.length false) idx with
      | error e => rw [h3, except_bind_error] at h; cases h
      | ok pk0 =>
        rw [h3, except_bind_ok] at h
        have hlen : pk0.length = x.length := by
          have hx := npSetTrue_ok_length _ _ _ h3
          rwa [List.length_replicate] at hx
        cases fl with
        | true =>
          rw [if_pos rfl] at h
          simp only [Except.ok.injEq, Prod.mk.injEq] at h
          obtain ⟨rfl, rfl⟩ := h
          rw [to_neighbour_length, hlen]
        | false =>
          rw [if_neg (by simp)] at h
          simp only [Except.ok.injEq, Prod.mk.injEq] at h
          obtain ⟨rfl, rfl⟩ := h
          exact hlen

theorem getElem?_eq_some_getD {α : Type} (l : List α) (m : ℕ) (d : α) (h : m < l.length) :
    l[m]? = some (l.getD m d) := by
  rw [List.getD_eq_getElem?_getD, List.getElem?_eq_getElem h]
  rfl

theorem mem_applyKeep_drop (idx : List ℕ) (mask : List Bool) (j : ℕ) :
    j ∈ applyKeep (idx.drop 1) mask ↔
      ∃ k, mask.getD k false = true ∧ k + 1 < idx.length ∧ idx.getD (k + 1) 0 = j := by
  rw [mem_applyKeep]
  constructor
  · rintro ⟨k, hk, hg⟩
    rw [List.getElem?_drop] at hg
    obtain ⟨hlt, hv⟩ := List.getElem?_eq_some.mp hg
    refine ⟨k, hk, by omega, ?_⟩
    rw [List.getD_eq_getElem?_getD, show k + 1 = 1 + k from by omega,
      List.getElem?_eq_getElem hlt, hv]
    rfl
  · rintro ⟨k, hk, hlt, hgd⟩
    refine ⟨k, hk, ?_⟩
    rw [List.getElem?_drop, show 1 + k = k + 1 from by omega,
      getElem?_eq_some_getD idx (k + 1) 0 hlt, hgd]

theorem rsp_peaks_ok_len (ext : Externals) (signal : List ℚ) (sfreq nsf : ℤ) (win : ℚ)
    (kind : String) (res : List ℚ) (out : RspOut)
    (h : rsp_peaks ext signal sfreq nsf win kind = .ok (res, out)) : rspLenOk res out := by
  unfold rsp_peaks at h
  split at h
  case isFalse => cases h
  case isTrue hk =>
    cases h1 : resampleE signal sfreq nsf with
    | error e => rw [h1, except_bind_error] at h; cases h
    | ok x =>
      rw [h1, except_bind_ok] at h
      cases h2 : checkWindow (pyInt ((sfreq : ℚ) * win)) with
      | error e => rw [h2, except_bind_error] at h; cases h
      | ok w =>
        rw [h2, except_bind_ok] at h
        cases h3 : checkDistance (2 * sfreq) with
        | error e => rw [h3, except_bind_error] at h; cases h
        | ok d =>
          rw [h3, except_bind_ok] at h
          rcases hk with hk | hk | hk <;> subst hk
          · -- kind = "peaks"
            rw [if_pos (by decide)] at h
            cases h4 : npSetTrue (List.replicate x.length false)
                (findPeaks (rspEnhance ext x w) d) with
            | error e =>
              rw [h4] at h
              simp only [except_bind_error] at h
              cases h
            | ok pv =>
              rw [h4] at h
              simp only [except_bind_ok, except_pure_eq_ok] at h
              rw [if_neg (by decide)] at h
              rw [if_pos trivial] at h
              simp only [Except.ok.injEq, Prod.mk.injEq] at h
              obtain ⟨rfl, rfl⟩ := h
              show pv.length = x.length
              have hx := npSetTrue_ok_length _ _ _ h4
              rwa [List.length_replicate] at hx
          · -- kind = "troughs": the call errors, the claim holds vacuously here
            rw [if_neg (by decide)] at h
            simp only [except_bind_ok, except_pure_eq_ok] at h
            rw [if_pos (by decide)] at h
            cases h4 : npSetTrue (List.replicate x.length false)
                (findPeaks ((rspEnhance ext x w).map qvNeg) d) with
            | error e =>
              rw [h4] at h
              simp only [except_bind_error] at h
              cases h
            | ok tv =>
              rw [h4] at h
              simp only [except_bind_ok, except_pure_eq_ok] at h
              rw [if_neg (by decide), if_neg (by decide)] at h
              cases h
          · -- kind = "peaks-troughs"
            rw [if_pos (by decide)] at h
            cases h4 : npSetTrue (List.replicate x.length false)
                (findPeaks (rspEnhance ext x w) d) with
            | error e =>
              rw [h4] at h
              simp only [except_bind_error] at h
              cases h
            | ok pv =>
              rw [h4] at h
              simp only [except_bind_ok, except_pure_eq_ok] at h
              rw [if_pos (by decide)] at h
              cases h5 : npSetTrue (List.replicate x.length false)
                  (findPeaks ((rspEnhance ext x w).map qvNeg) d) with
              | error e =>
                rw [h5] at h
                simp only [except_bind_error] at h
                cases h
              | ok tv =>
                rw [h5] at h
                simp only [except_bind_ok, except_pure_eq_ok] at h
                rw [if_neg (by decide), if_neg (by decide)] at h
                simp only [Except.ok.injEq, Prod.mk.injEq] at h
                obtain ⟨rfl, rfl⟩ := h
                have hp := npSetTrue_ok_length _ _ _ h4
                have ht := npSetTrue_ok_length _ _ _ h5
                rw [List.length_replicate] at hp ht
                exact ⟨hp, ht⟩

/-! ## Claims about the RR artefact classifier -/

/-- An interval series (in milliseconds) exercising the long-label
propagation rule: interval 7 (1500 ms) is long, interval 8 (1300 ms) is the
immediately following sample, and `|s11|` at sample 9 exceeds `|s11|` at
sample 8, so the spec's propagation rule requires sample 8 to be marked
long as well. -/
def rrC1 : List ℚ :=
  [1000, 1030, 990, 1020, 980, 1010, 1000, 1500, 1300, 1000, 1030, 985, 1015, 990, 1020]

/-- C1: the claim requires that, sample 7 being marked long by the initial
decision while `|s11[9]| > |s11[8]|`, sample 8 is also marked long.  The code
never extends the label: the propagation loop's guard `cond[i] is True`
compares a numpy boolean with the Python `True` singleton and is always
false, so the long mask stays false at sample 8 (both after the loop and in
the returned report), and the short mask is false there too.  The two
thresholds are positive at every sample of this series, so the embedded
rational computation agrees with the floating-point run. -/
theorem c1_propagation_never_extends :
    longInitial rrC1 7 = true ∧
    qabs (s11 rrC1 8) < qabs (s11 rrC1 9) ∧
    maskProp rrC1 (longInitial rrC1) 8 = false ∧
    (rrArtefacts rrC1).long.getD 8 false = false ∧
    (rrArtefacts rrC1).short.getD 8 false = false ∧
    0 < th1 rrC1 8 ∧ 0 < th2 rrC1 8 := by
  decide

/-- C2: in the report returned by `rr_artefacts` (defined for series of
length at least two, where the function returns at all), the missed and long
masks are never both true at an index, and neither are the extra and short
masks: `longBeats[missed] = False` runs after `missed = missed & longBeats`,
and `shortBeats[extra] = False` after `extra = extra & shortBeats`. -/
theorem c2_missed_long_extra_short_exclusive :
    ∀ (rr : List ℚ), 2 ≤ rr.length → ∀ i : ℕ,
      ¬((rrArtefacts rr).missed.getD i false = true ∧
          (rrArtefacts rr).long.getD i false = true) ∧
      ¬((rrArtefacts rr).extra.getD i false = true ∧
          (rrArtefacts rr).short.getD i false = true) := by
  intro rr _h i
  constructor
  · rintro ⟨hm, hl⟩
    rw [show (rrArtefacts rr).missed = (List.range rr.length).map (missedF rr) from rfl,
      getD_map_range] at hm
    rw [show (rrArtefacts rr).long = (List.range rr.length).map (longFinal rr) from rfl,
      getD_map_range] at hl
    by_cases hi : i < rr.length
    · rw [if_pos hi] at hm hl
      simp [longFinal, longNoMiss, hm] at hl
    · rw [if_neg hi] at hm
      exact absurd hm (by simp)
  · rintro ⟨hm, hl⟩
    rw [show (rrArtefacts rr).extra = (List.range rr.length).map (extraF rr) from rfl,
      getD_map_range] at hm
    rw [show (rrArtefacts rr).short = (List.range rr.length).map (shortFinal rr) from rfl,
      getD_map_range] at hl
    by_cases hi : i < rr.length
    · rw [if_pos hi] at hm hl
      simp [shortFinal, shortNoExtra, hm] at hl
    · rw [if_neg hi] at hm
      exact absurd hm (by simp)

/-- Witness for C2 at the concrete series `[100, 120]`. -/
theorem c2_missed_long_extra_short_exclusive_witness :
    2 ≤ ([100, 120] : List ℚ).length ∧
      (¬((rrArtefacts [100, 120]).missed.getD 0 false = true ∧
          (rrArtefacts [100, 120]).long.getD 0 false = true) ∧
       ¬((rrArtefacts [100, 120]).extra.getD 0 false = true ∧
          (rrArtefacts [100, 120]).short.getD 0 false = true)) :=
  ⟨by decide, c2_missed_long_extra_short_exclusive [100, 120] (by decide) 0⟩

/-- C6: in the report returned by `rr_artefacts` the ectopic mask is false at
the first two and the last two samples (`ectopic[-2:] = False`,
`ectopic[:2] = False`), and the long and short masks are false at the first
and last samples (`shortBeats[0], shortBeats[-1] = False, False`, likewise
for `longBeats`). -/
theorem c6_boundary_masks_false :
    ∀ (rr : List ℚ), 2 ≤ rr.length →
      (rrArtefacts rr).ectopic.getD 0 false = false ∧
      (rrArtefacts rr).ectopic.getD 1 false = false ∧
      (rrArtefacts rr).ectopic.getD (rr.length - 1) false = false ∧
      (rrArtefacts rr).ectopic.getD (rr.length - 2) false = false ∧
      (rrArtefacts rr).long.getD 0 false = false ∧
      (rrArtefacts rr).long.getD (rr.length - 1) false = false ∧
      (rrArtefacts rr).short.getD 0 false = false ∧
      (rrArtefacts rr).short.getD (rr.length - 1) false = false := by
  intro rr h
  have h0 : 0 < rr.length := by omega
  have h1 : 1 < rr.length := by omega
  have hm1 : rr.length - 1 < rr.length := by omega
  have hm2 : rr.length - 2 < rr.length := by omega
  have e1 : rr.length - 1 + 1 = rr.length := by omega
  have e2 : ¬(rr.length - 1 + 2 < rr.length) := by omega
  have e3 : ¬(rr.length - 2 + 2 < rr.length) := by omega
  refine ⟨?_, ?_, ?_, ?_, ?_, ?_, ?_, ?_⟩
  · rw [show (rrArtefacts rr).ectopic = (List.range rr.length).map (ectopicF rr) from rfl,
      getD_map_range, if_pos h0]
    simp [ectopicF]
  · rw [show (rrArtefacts rr).ectopic = (List.range rr.length).map (ectopicF rr) from rfl,
      getD_map_range, if_pos h1]
    simp [ectopicF]
  · rw [show (rrArtefacts rr).ectopic = (List.range rr.length).map (ectopicF rr) from rfl,
      getD_map_range, if_pos hm1]
    simp [ectopicF, e2]
  · rw [show (rrArtefacts rr).ectopic = (List.range rr.length).map (ectopicF rr) from rfl,
      getD_map_range, if_pos hm2]
    simp [ectopicF, e3]
  · rw [show (rrArtefacts rr).long = (List.range rr.length).map (longFinal rr) from rfl,
      getD_map_range, if_pos h0]
    simp [longFinal]
  · rw [show (rrArtefacts rr).long = (List.range rr.length).map (longFinal rr) from rfl,
      getD_map_range, if_pos hm1]
    simp [longFinal, e1]
  · rw [show (rrArtefacts rr).short = (List.range rr.length).map (shortFinal rr) from rfl,
      getD_map_range, if_pos h0]
    simp [shortFinal]
  · rw [show (rrArtefacts rr).short = (List.range rr.length).map (shortFinal rr) from rfl,
      getD_map_range, if_pos hm1]
    simp [shortFinal, e1]

/-- Witness for C6 at the concrete series `[100, 120]`. -/
theorem c6_boundary_masks_false_witness :
    2 ≤ ([100, 120] : List ℚ).length ∧
      (rrArtefacts [100, 120]).ectopic.getD 0 false = false ∧
      (rrArtefacts [100, 120]).long.getD 0 false = false :=
  ⟨by decide, (c6_boundary_masks_false [100, 120] (by decide)).1,
    (c6_boundary_masks_false [100, 120] (by decide)).2.2.2.2.1⟩

/-! ## Claims about interpolate_clipping -/

/-- A signal whose first sample sits exactly at the max clipping threshold. -/
def sC3 : List ℚ := [255, 10, 20, 30]

/-- C3 counterexample: calling `interpolate_clipping` on an ndarray whose
first sample equals the max threshold mutates the caller-supplied array in
place (the edge nudge `clean_signal[0] = max_threshold - 1` runs on the
un-copied `np.asarray` view), so the input does not stay unchanged. -/
theorem c3_counterexample_edge_mutation :
    (interpolate_clipping constInterp sC3 none (some 255)).toOption.map ClipOut.caller =
        some [254, 10, 20, 30] ∧
      ([254, 10, 20, 30] : List ℚ) ≠ sC3 := by
  decide

/-- C3 amended: for a nonempty signal, the caller-supplied array is left
unchanged provided neither the first nor the last sample equals the
applicable clipping threshold (the max threshold when given, otherwise the
min threshold); the returned array is a fresh interpolation output whenever
at least one threshold is given, and it is the caller's own array exactly
when both thresholds are `None`. -/
theorem c3_amended_no_edge_clip_no_mutation :
    ∀ (mk : List ℚ → List ℚ → ℚ → ℚ) (s : List ℚ) (tmin tmax : Option ℚ),
      s ≠ [] →
      (∀ t, tmax = some t → s.getD 0 0 ≠ t ∧ s.getD (s.length - 1) 0 ≠ t) →
      (tmax = none → ∀ t, tmin = some t → s.getD 0 0 ≠ t ∧ s.getD (s.length - 1) 0 ≠ t) →
      ∃ out, interpolate_clipping mk s tmin tmax = .ok out ∧ out.caller = s ∧
        (out.sameObj = true ↔ (tmin = none ∧ tmax = none)) := by
  intro mk s tmin tmax hne hmax hmin
  have hlen : ¬(s.length = 0) := by simpa [List.length_eq_zero] using hne
  cases tmax with
  | some t =>
    have hn := hmax t rfl
    have hnudge : edgeNudge s t (-1) = s := by
      unfold edgeNudge
      rw [if_neg hn.1]
      unfold edgeNudgeLast
      rw [if_neg hn.2]
    cases tmin with
    | some t2 =>
      simp only [interpolate_clipping, if_neg hlen, hnudge]
      exact ⟨_, rfl, rfl, by simp⟩
    | none =>
      simp only [interpolate_clipping, if_neg hlen, hnudge]
      exact ⟨_, rfl, rfl, by simp⟩
  | none =>
    cases tmin with
    | some t2 =>
      have hn := hmin rfl t2 rfl
      have hnudge : edgeNudge s t2 1 = s := by
        unfold edgeNudge
        rw [if_neg hn.1]
        unfold edgeNudgeLast
        rw [if_neg hn.2]
      simp only [interpolate_clipping, if_neg hlen, hnudge]
      exact ⟨_, rfl, rfl, by simp⟩
    | none => exact ⟨⟨s, s, true⟩, rfl, rfl, by simp⟩

/-- Witness for the amended C3 at a concrete signal and max threshold. -/
theorem c3_amended_no_edge_clip_no_mutation_witness :
    ([1, 2, 3] : List ℚ) ≠ [] ∧
      ∃ out, interpolate_clipping constInterp [1, 2, 3] none (some 255) = .ok out ∧
        out.caller = [1, 2, 3] ∧
        (out.sameObj = true ↔ ((none : Option ℚ) = none ∧ (some (255 : ℚ)) = none)) :=
  ⟨by decide,
    c3_amended_no_edge_clip_no_mutation constInterp [1, 2, 3] none (some 255) (by decide)
      (by intro t ht; cases ht; exact ⟨by decide, by decide⟩)
      (by intro h; cases h)⟩

/-- C7: with both thresholds `None`, `interpolate_clipping` takes neither
correction branch and returns `np.asarray(signal)` — the identity on the
signal values (indeed the caller's array itself). -/
theorem c7_none_none_identity :
    ∀ (mk : List ℚ → List ℚ → ℚ → ℚ) (signal : List ℚ),
      interpolate_clipping mk signal none none = .ok ⟨signal, signal, true⟩ := by
  intro mk s
  rfl

/-! ## Claims about the detection pipelines -/

theorem npSetTrue_ok_of_bounds (v : List Bool) (idx : List ℕ) (hb : ∀ i ∈ idx, i < v.length) :
    npSetTrue v idx = .ok (idx.foldl (fun a i => a.set i true) v) := by
  unfold npSetTrue
  rw [if_pos (by rw [List.all_eq_true]; intro i hi; exact decide_eq_true (hb i hi))]

/-- C4: calling `rsp_peaks` with `kind="troughs"` on any signal (with
matching sampling rates and admissible rolling window and peak distance)
raises `UnboundLocalError` instead of returning the trough vector: the kind
passes validation, `"peaks" in kind` is false so `peaks` is never assigned,
and the return dispatch tests the misspelled `kind == "trough"`, so the
final `else` branch returns the unassigned `peaks`. -/
theorem c4_troughs_unbound_local :
    ∀ (ext : Externals) (signal : List ℚ) (sfreq : ℤ) (win : ℚ),
      1 ≤ pyInt ((sfreq : ℚ) * win) → 1 ≤ 2 * sfreq →
      rsp_peaks ext signal sfreq sfreq win "troughs" = .error .unboundLocal := by
  intro ext signal sfreq win hw hd
  unfold rsp_peaks
  rw [if_pos (by decide)]
  have h1 : resampleE signal sfreq sfreq = .ok signal := by
    unfold resampleE
    rw [if_pos rfl]
  rw [h1]
  simp only [except_bind_ok]
  have h2 : checkWindow (pyInt ((sfreq : ℚ) * win)) = .ok (pyInt ((sfreq : ℚ) * win)).toNat := by
    unfold checkWindow
    rw [if_neg (by omega)]
  rw [h2]
  simp only [except_bind_ok]
  have h3 : checkDistance (2 * sfreq) = .ok (2 * sfreq).toNat := by
    unfold checkDistance
    rw [if_neg (by omega)]
  rw [h3]
  simp only [except_bind_ok]
  rw [if_neg (by decide)]
  simp only [except_bind_ok, except_pure_eq_ok]
  rw [if_pos (by decide)]
  rw [npSetTrue_ok_of_bounds _ _ (fun i hi => by
    rw [List.length_replicate]
    have hlt := findPeaks_mem_lt _ _ i hi
    rwa [List.length_map, rspEnhance_length] at hlt)]
  simp only [except_bind_ok, except_pure_eq_ok]
  rw [if_neg (by decide), if_neg (by decide)]

/-- Witness for C4 at a concrete signal and sampling rate. -/
theorem c4_troughs_unbound_local_witness :
    1 ≤ pyInt (((1000 : ℤ) : ℚ) * (1/40)) ∧ 1 ≤ 2 * (1000 : ℤ) ∧
      rsp_peaks dummyExternals [0, 5, 1] 1000 1000 (1/40) "troughs" = .error .unboundLocal :=
  ⟨by decide, by decide,
    c4_troughs_unbound_local dummyExternals [0, 5, 1] 1000 (1/40) (by decide) (by decide)⟩

/-- C5 counterexample: `ppg_peaks` on an empty signal (with matching
sampling rates, so the resampling block is skipped) returns a pair of empty
arrays instead of failing — there is no input validation in the pipeline. -/
theorem c5_counterexample_empty_signal_returns :
    ppg_peaks dummyExternals [] 1000 (3/4) 1000 true (.pair none none) true (1/20) true (3/10)
        false = .ok ([], []) := by
  decide

/-- C5 amended: the pipelines perform no input validation.  For every
external instantiation and every sampling rate with admissible window and
distance parameters, `ppg_peaks` on the empty signal (equal old and new
rates) returns empty outputs rather than failing; non-positive rates are
not rejected either (a zero rate surfaces as `ZeroDivisionError` from the
resampling arithmetic and a negative rate is not detected at all — there is
no `InvalidInput` check). -/
theorem c5_amended_no_empty_validation :
    ∀ (ext : Externals) (sfreq : ℤ) (win mal dist : ℚ),
      1 ≤ pyInt ((sfreq : ℚ) * win) → 1 ≤ pyInt ((sfreq : ℚ) * dist) →
      ppg_peaks ext [] sfreq win sfreq true (.pair none none) true mal true dist false =
        .ok ([], []) := by
  intro ext sfreq win mal dist hw hd
  have h1 : resampleE [] sfreq sfreq = .ok [] := by
    unfold resampleE
    rw [if_pos rfl]
  have h2 : checkWindow (pyInt ((sfreq : ℚ) * win)) = .ok (pyInt ((sfreq : ℚ) * win)).toNat := by
    unfold checkWindow
    rw [if_neg (by omega)]
  have h3 : checkDistance (pyInt ((sfreq : ℚ) * dist)) =
      .ok (pyInt ((sfreq : ℚ) * dist)).toNat := by
    unfold checkDistance
    rw [if_neg (by omega)]
  have hthr : ppgThreshold ext [] sfreq win sfreq true (.pair none none) true mal true =
      .ok ([], []) := by
    unfold ppgThreshold
    rw [h1]
    simp only [except_bind_ok]
    rw [show ppgClipStep ext [] true (.pair none none) = .ok [] from rfl]
    simp only [except_bind_ok]
    rw [h2]
    simp only [except_bind_ok]
    rfl
  have hdet : ppgDetect ext [] sfreq win sfreq true (.pair none none) true mal true dist =
      .ok ([], [], []) := by
    unfold ppgDetect
    rw [hthr]
    simp only [except_bind_ok]
    rw [h3]
    simp only [except_bind_ok]
    rfl
  unfold ppg_peaks
  rw [hdet]
  simp only [except_bind_ok]
  rfl

/-- Witness for the amended C5 at rate 1000 and the default parameters. -/
theorem c5_amended_no_empty_validation_witness :
    1 ≤ pyInt (((1000 : ℤ) : ℚ) * (3/4)) ∧ 1 ≤ pyInt (((1000 : ℤ) : ℚ) * (3/10)) ∧
      ppg_peaks dummyExternals [] 1000 (3/4) 1000 true (.pair none none) true (1/20) true (3/10)
          false = .ok ([], []) :=
  ⟨by decide, by decide,
    c5_amended_no_empty_validation dummyExternals 1000 (3/4) (1/20) (3/10) (by decide)
      (by decide)⟩

/-- C8: whenever a detection pipeline returns, the boolean peak vector(s) it
returns have the length of the resampled signal returned alongside them:
each vector is `np.zeros(len(resampled_signal))` with in-range indices set,
and the later passes (extra-peak pruning, local-extremum refinement)
preserve the length. -/
theorem c8_peak_vector_lengths :
    (∀ (ext : Externals) (signal : List ℚ) (sfreq : ℤ) (win : ℚ) (nsf : ℤ) (clip : Bool)
        (cth : ClipThresholds) (ma : Bool) (mal : ℚ) (pe : Bool) (dist : ℚ) (ce : Bool)
        (res : List ℚ) (pk : List Bool),
        ppg_peaks ext signal sfreq win nsf clip cth ma mal pe dist ce = .ok (res, pk) →
          pk.length = res.length) ∧
    (∀ (ext : Externals) (signal : List ℚ) (sfreq nsf : ℤ) (method : String) (fl : Bool)
        (ws : ℚ) (res : List ℚ) (pk : List Bool),
        ecg_peaks ext signal sfreq nsf method fl ws = .ok (res, pk) →
          pk.length = res.length) ∧
    (∀ (ext : Externals) (signal : List ℚ) (sfreq nsf : ℤ) (win : ℚ) (kind : String)
        (res : List ℚ) (out : RspOut),
        rsp_peaks ext signal sfreq nsf win kind = .ok (res, out) → rspLenOk res out) := by
  refine ⟨?_, ?_, ?_⟩
  · intro ext signal sfreq win nsf clip cth ma mal pe dist ce res pk h
    unfold ppg_peaks at h
    cases hd : ppgDetect ext signal sfreq win nsf clip cth ma mal pe dist with
    | error e => rw [hd, except_bind_error] at h; cases h
    | ok t =>
      obtain ⟨res0, det, idx⟩ := t
      rw [hd, except_bind_ok] at h
      simp only [] at h
      have hlen := (ppgDetect_ok_spec _ _ _ _ _ _ _ _ _ _ _ _ _ _ hd).1
      cases ce with
      | false =>
        rw [if_neg (by simp)] at h
        simp only [Except.ok.injEq, Prod.mk.injEq] at h
        obtain ⟨rfl, rfl⟩ := h
        exact hlen
      | true =>
        rw [if_pos rfl] at h
        cases ha : rrArtefactsE (diffQ (natWhere det)) with
        | error e => rw [ha, except_bind_error] at h; cases h
        | ok art =>
          rw [ha, except_bind_ok] at h
          simp only [Except.ok.injEq, Prod.mk.injEq] at h
          obtain ⟨rfl, rfl⟩ := h
          rw [npClearIdx_length]
          exact hlen
  · intro ext signal sfreq nsf method fl ws res pk h
    exact ecg_peaks_ok_length ext signal sfreq nsf method fl ws res pk h
  · intro ext signal sfreq nsf win kind res out h
    exact rsp_peaks_ok_len ext signal sfreq nsf win kind res out h

/-- Witness for C8 at one concrete run of each pipeline. -/
theorem c8_peak_vector_lengths_witness :
    ([false, false, false, true, false] : List Bool).length = ([0, 3, 0, 3, 0] : List ℚ).length ∧
    ([false, false] : List Bool).length = ([1, 2] : List ℚ).length ∧
    rspLenOk [1, 2] (.single [false, false]) :=
  ⟨c8_peak_vector_lengths.1 dummyExternals [0, 3, 0, 3, 0] 4 (1/2) 4 false (.pair none none)
      false (1/20) false (1/4) false _ _ (by decide),
   c8_peak_vector_lengths.2.1 dummyExternals [1, 2] 4 4 "sleepecg" false (1/10) _ _ (by decide),
   c8_peak_vector_lengths.2.2 dummyExternals [1, 2] 1000 1000 (1/40) "peaks" _ _ (by decide)⟩

/-- C9: `ecg_peaks` produces the `UnknownMethod` failure exactly for method
names outside the recognized six; with a recognized name the dispatch
invokes the selected detector, and any later failure is a different error
(never `UnknownMethod`).  The equivalence is stated for calls that reach the
dispatch, i.e. whose resampling block succeeds (otherwise that earlier
failure is raised, which is again never `UnknownMethod`, as the first
conjunct states unconditionally). -/
theorem c9_unknown_method_iff :
    ∀ (ext : Externals) (signal : List ℚ) (sfreq nsf : ℤ) (method : String) (fl : Bool)
      (ws : ℚ),
      (ecg_peaks ext signal sfreq nsf method fl ws = .error .unknownMethod →
        ¬ method ∈ ecgMethods) ∧
      (∀ x, resampleE signal sfreq nsf = .ok x →
        (ecg_peaks ext signal sfreq nsf method fl ws = .error .unknownMethod ↔
          ¬ method ∈ ecgMethods)) := by
  intro ext signal sfreq nsf method fl ws
  have hmain : ∀ x, resampleE signal sfreq nsf = .ok x →
      (ecg_peaks ext signal sfreq nsf method fl ws = .error .unknownMethod ↔
        ¬ method ∈ ecgMethods) := by
    intro x hx
    constructor
    · intro h hmem
      obtain ⟨idx, hdisp⟩ := ecgDispatch_mem ext method x nsf hmem
      unfold ecg_peaks at h
      rw [hx, except_bind_ok, hdisp, except_bind_ok] at h
      cases h4 : npSetTrue (List.replicate x.length false) idx with
      | error e =>
        rw [h4, except_bind_error] at h
        rw [npSetTrue_error_eq _ _ _ h4] at h
        exact absurd h (by decide)
      | ok pk0 =>
        rw [h4, except_bind_ok] at h
        cases fl with
        | true => rw [if_pos rfl] at h; cases h
        | false => rw [if_neg (by simp)] at h; cases h
    · intro hmem
      unfold ecg_peaks
      rw [hx, except_bind_ok, ecgDispatch_not_mem ext method x nsf hmem, except_bind_error]
  refine ⟨?_, hmain⟩
  intro h
  cases hx : resampleE signal sfreq nsf with
  | error e =>
    unfold ecg_peaks at h
    rw [hx, except_bind_error] at h
    injection h with he
    rcases resampleE_error_kind _ _ _ _ hx with h2 | h2 <;> (rw [h2] at he; cases he)
  | ok x => exact (hmain x hx).mp h

/-- Witness for C9 at a concrete signal and an unrecognized method name. -/
theorem c9_unknown_method_iff_witness :
    ecg_peaks dummyExternals [1, 2] 4 4 "foo" false (1/10) = .error .unknownMethod ↔
      ¬ "foo" ∈ ecgMethods :=
  (c9_unknown_method_iff dummyExternals [1, 2] 4 4 "foo" false (1/10)).2 [1, 2] (by decide)

/-- C10: when `ppg_peaks` runs with `clean_extra=True` and returns, the
returned vector is the detected vector with exactly the peaks cleared whose
index is `peaks_idx[k+1]` for an interval `k` flagged extra by the artefact
classifier run on `np.diff(np.where(peaks)[0])` — the peaks that terminate
an extra-flagged interval — and the first detected peak is never removed
(only indices `peaks_idx[1:]` can be cleared, and they all exceed
`peaks_idx[0]`). -/
theorem c10_clean_extra_prunes_exactly :
    ∀ (ext : Externals) (signal : List ℚ) (sfreq : ℤ) (win : ℚ) (nsf : ℤ) (clip : Bool)
      (cth : ClipThresholds) (ma : Bool) (mal : ℚ) (pe : Bool) (dist : ℚ)
      (res : List ℚ) (pk : List Bool),
      ppg_peaks ext signal sfreq win nsf clip cth ma mal pe dist true = .ok (res, pk) →
      ∃ det idx art,
        ppgDetect ext signal sfreq win nsf clip cth ma mal pe dist = .ok (res, det, idx) ∧
        natWhere det = idx ∧
        rrArtefactsE (diffQ idx) = .ok art ∧
        pk = npClearIdx det (applyKeep (idx.drop 1) art.extra) ∧
        (∀ j : ℕ, pk.getD j false = true ↔
          (det.getD j false = true ∧
            ¬ ∃ k, art.extra.getD k false = true ∧ k + 1 < idx.length ∧
              idx.getD (k + 1) 0 = j)) ∧
        (idx ≠ [] → pk.getD (idx.headD 0) false = true) := by
  intro ext signal sfreq win nsf clip cth ma mal pe dist res pk h
  unfold ppg_peaks at h
  cases hd : ppgDetect ext signal sfreq win nsf clip cth ma mal pe dist with
  | error e => rw [hd, except_bind_error] at h; cases h
  | ok t =>
    obtain ⟨res0, det, idx⟩ := t
    rw [hd, except_bind_ok] at h
    simp only [] at h
    rw [if_pos trivial] at h
    obtain ⟨hlen, hpair, hbnd, hget, hwhere⟩ := ppgDetect_ok_spec _ _ _ _ _ _ _ _ _ _ _ _ _ _ hd
    cases ha : rrArtefactsE (diffQ (natWhere det)) with
    | error e => rw [ha, except_bind_error] at h; cases h
    | ok art =>
      rw [ha, except_bind_ok] at h
      simp only [Except.ok.injEq, Prod.mk.injEq] at h
      obtain ⟨rfl, rfl⟩ := h
      refine ⟨det, idx, art, rfl, hwhere, by rw [← hwhere]; exact ha, rfl, ?_, ?_⟩
      · intro j
        rw [npClearIdx_getD]
        constructor
        · intro hj
          rcases Bool.and_eq_true .. |>.mp hj with ⟨hdet, hnot⟩
          refine ⟨hdet, ?_⟩
          rintro ⟨k, hk1, hk2, hk3⟩
          have hmem : j ∈ applyKeep (idx.drop 1) art.extra :=
            (mem_applyKeep_drop idx art.extra j).mpr ⟨k, hk1, hk2, hk3⟩
          rw [decide_eq_true hmem] at hnot
          cases hnot
        · rintro ⟨hdet, hnot⟩
          rw [hdet]
          have : ¬ j ∈ applyKeep (idx.drop 1) art.extra := by
            intro hmem
            exact hnot ((mem_applyKeep_drop idx art.extra j).mp hmem)
          rw [decide_eq_false this]
          rfl
      · intro hne
        cases hidx : idx with
        | nil => exact absurd hidx hne
        | cons h0 t0 =>
          rw [npClearIdx_getD]
          simp only [List.headD_cons]
          have hd0 : det.getD h0 false = true := by
            rw [hget h0, hidx]
            simp
          rw [hd0]
          have hnotmem : ¬ h0 ∈ applyKeep ((h0 :: t0).drop 1) art.extra := by
            intro hmem
            have hsub := (applyKeep_sublist ((h0 :: t0).drop 1) art.extra).mem hmem
            rw [hidx] at hpair
            simp only [List.drop_succ_cons, List.drop_zero] at hsub
            exact absurd (List.rel_of_pairwise_cons hpair hsub) (lt_irrefl h0)
          rw [decide_eq_false hnotmem]
          rfl

/-- A PPG signal whose run with `clean_extra` detects three peaks. -/
def sigC10 : List ℚ := [0, 3, 0, 3, 0, 3, 0, 3, 0]

/-- The vector returned by that run. -/
def pkC10 : List Bool := [false, false, false, true, false, true, false, true, false]

/-- Witness for C10 at a concrete run with three detected peaks. -/
theorem c10_clean_extra_prunes_exactly_witness :
    ∃ det idx art,
      ppgDetect dummyExternals sigC10 4 (1/2) 4 false (.pair none none) false (1/20) false
          (1/4) = .ok (sigC10, det, idx) ∧
      natWhere det = idx ∧
      rrArtefactsE (diffQ idx) = .ok art ∧
      pkC10 = npClearIdx det (applyKeep (idx.drop 1) art.extra) ∧
      (∀ j : ℕ, pkC10.getD j false = true ↔
        (det.getD j false = true ∧
          ¬ ∃ k, art.extra.getD k false = true ∧ k + 1 < idx.length ∧
            idx.getD (k + 1) 0 = j)) ∧
      (idx ≠ [] → pkC10.getD (idx.headD 0) false = true) :=
  c10_clean_extra_prunes_exactly dummyExternals sigC10 4 (1/2) 4 false (.pair none none) false
    (1/20) false (1/4) sigC10 pkC10 (by decide)

end Systole
